import Mathlib

/-!
Verification of the hera-workflows builder layer against its source.

The development shallowly embeds the two source modules under `src/`:

* `src/hera/env.py` — the environment-variable specifications (`EnvSpec`,
  `SecretEnvSpec`, `ConfigMapEnvSpec`, `FieldEnvSpec`) and their `build`
  methods.  `EnvSpec.build` serializes non-string literal values with
  Python's `json.dumps`; that serializer (and the matching `json.loads`
  decoder used to state the round-trip property) is embedded below over an
  explicit model of Python's JSON-encodable values.
* `src/hera/workflow.py` — the `Workflow` class: `_build_metadata`,
  `_build_spec`, `build`, the scoped-context entry, `create`, `on_exit`
  and `get_parameter`.

Collaborator classes that live in repository files not present under
`src/` (DAG, Task, Parameter, the scheduling primitives) are modelled
from the specification document; each such definition says so in its doc
comment.

Python strings are modelled as `List Char` where character-level
reasoning is needed (JSON escaping) and as `String` elsewhere.  Machine
floats are outside the embedding.  Two value domains are modelled:
`PyValue`, the JSON-native values (`None`, `bool`, `int`, `str`,
`list`, string-keyed `dict`) on which encode/decode can round-trip, and
`PyObj`, the full domain `json.dumps` accepts, which additionally has
tuples (encoded as arrays) and dicts with non-string keys (coerced to
strings) — the inputs on which the round-trip fails.
-/

/-! ## Python JSON values

`PyValue` models the JSON-native Python values: `None`, booleans, ints,
strings, lists, and dicts with string keys — the values `json.loads`
can produce (floats are outside the embedding).  `obj` stands for any
value of a type the default `JSONEncoder` rejects with a `TypeError`,
e.g. a set or an arbitrary object.  Dictionaries are modelled with
string keys and in order (Python dict preserves insertion order, so an
ordered association list is faithful).  Note that `json.dumps` accepts
strictly more than this fragment: it also takes tuples (encoded as
arrays) and dicts with non-string keys (keys coerced to strings);
that full domain is modelled separately by `PyObj` below, and
encode/decode is the identity only on the JSON-native fragment. -/

mutual

inductive PyValue : Type where
| none : PyValue
| bool (b : Bool) : PyValue
| int (n : Int) : PyValue
| str (s : List Char) : PyValue
| list (xs : PyList) : PyValue
| dict (xs : PyDict) : PyValue
| obj : PyValue

inductive PyList : Type where
| nil : PyList
| cons (v : PyValue) (tl : PyList) : PyList

inductive PyDict : Type where
| nil : PyDict
| cons (k : List Char) (v : PyValue) (tl : PyDict) : PyDict

end

/-! ## The JSON encoder (model of `json.dumps` with default arguments)

Default arguments means: `ensure_ascii=True` (every character outside
`0x20..0x7e` is escaped), separators `", "` and `": "`, no indentation. -/

/-- Lowercase hex digit, as emitted by Python's `'\u%04x'` formatting. -/
def hexDigitChar (n : Nat) : Char :=
  if n < 10 then Char.ofNat (48 + n) else Char.ofNat (87 + n)

/-- Four lowercase hex digits of `n < 0x10000`, most significant first. -/
def hex4 (n : Nat) : List Char :=
  [hexDigitChar (n / 4096 % 16), hexDigitChar (n / 256 % 16),
   hexDigitChar (n / 16 % 16), hexDigitChar (n % 16)]

/-- Escape of a single character inside a JSON string, following
`json.encoder.py_encode_basestring_ascii`: `"` and `\` get a backslash
escape, the five control shortcuts are used when applicable, printable
ASCII passes through, everything else becomes `\uXXXX` (a surrogate pair
for code points above `0xffff`). -/
def encChar (c : Char) : List Char :=
  let n := c.toNat
  if c = '"' then ['\\', '"']
  else if c = '\\' then ['\\', '\\']
  else if n = 8 then ['\\', 'b']
  else if n = 12 then ['\\', 'f']
  else if n = 10 then ['\\', 'n']
  else if n = 13 then ['\\', 'r']
  else if n = 9 then ['\\', 't']
  else if 32 ≤ n ∧ n ≤ 126 then [c]
  else if n ≤ 0xffff then '\\' :: 'u' :: hex4 n
  else
    let m := n - 0x10000
    '\\' :: 'u' :: hex4 (0xd800 + m / 0x400) ++ '\\' :: 'u' :: hex4 (0xdc00 + m % 0x400)

/-- JSON encoding of a whole Python string: quotes around the escaped body. -/
def encString (s : List Char) : List Char :=
  '"' :: s.flatMap encChar ++ ['"']

/-- Decimal digits of `n`, most significant first, as Python's `repr`
prints a non-negative integer. -/
def natRepr (n : Nat) : List Char :=
  if n = 0 then ['0']
  else (Nat.digits 10 n).reverse.map (fun d => Char.ofNat (48 + d))

/-- Python `repr` of an `int` (what `json.dumps` emits for one). -/
def intRepr (n : Int) : List Char :=
  if n < 0 then '-' :: natRepr n.natAbs else natRepr n.toNat

mutual

/-- Model of `json.dumps` with default arguments on the embedded value
domain; `Option.none` is the `TypeError` the default encoder raises on a
non-encodable object. -/
def pyDumps : PyValue → Option (List Char)
| .none => some (['n', 'u', 'l', 'l'])
| .bool true => some (['t', 'r', 'u', 'e'])
| .bool false => some (['f', 'a', 'l', 's', 'e'])
| .int n => some (intRepr n)
| .str s => some (encString s)
| .list xs =>
  match pyDumpsItems xs with
  | some body => some ('[' :: body ++ [']'])
  | Option.none => Option.none
| .dict xs =>
  match pyDumpsMembers xs with
  | some body => some ('\x7b' :: body ++ ['\x7d'])
  | Option.none => Option.none
| .obj => Option.none

/-- The comma-separated encodings of the elements of a list (Python's
`", ".join`). -/
def pyDumpsItems : PyList → Option (List Char)
| .nil => some ([])
| .cons v .nil => pyDumps v
| .cons v (.cons w tl) =>
  match pyDumps v, pyDumpsItems (.cons w tl) with
  | some a, some b => some (a ++ ',' :: ' ' :: b)
  | _, _ => Option.none

/-- The comma-separated `"key": value` encodings of the entries of a
dict (separators `", "` and `": "`). -/
def pyDumpsMembers : PyDict → Option (List Char)
| .nil => some ([])
| .cons k v .nil =>
  match pyDumps v with
  | some a => some (encString k ++ ':' :: ' ' :: a)
  | Option.none => Option.none
| .cons k v (.cons k2 w tl) =>
  match pyDumps v, pyDumpsMembers (.cons k2 w tl) with
  | some a, some b => some (encString k ++ ':' :: ' ' :: a ++ ',' :: ' ' :: b)
  | _, _ => Option.none

end

mutual

/-- A value is JSON-encodable when it contains no `obj` leaf (on the
embedded domain this is exactly when the default encoder succeeds). -/
def pyEncodable : PyValue → Bool
| .none => true
| .bool _ => true
| .int _ => true
| .str _ => true
| .list xs => pyEncodableL xs
| .dict xs => pyEncodableD xs
| .obj => false

def pyEncodableL : PyList → Bool
| .nil => true
| .cons v tl => pyEncodable v && pyEncodableL tl

def pyEncodableD : PyDict → Bool
| .nil => true
| .cons _ v tl => pyEncodable v && pyEncodableD tl

end

/-! ## The full Python value domain of `json.dumps`

`json.dumps` accepts more than the JSON-native values: tuples are
encoded exactly like lists (`isinstance(o, (list, tuple))` in
`_iterencode_list`), and dict keys that are not strings are coerced to
strings by `_iterencode_dict` (`int` via its repr, `True`/`False`/
`None` via their JSON spellings; any other key type raises `TypeError`
under the default `skipkeys=False`).  Decoding such an encoding yields
the JSON-native value it spells — a list for a tuple, a string key for
a coerced key — not the original, so encode/decode is not the identity
on this wider domain. -/

/-- A Python dict key as the default encoder classifies it (floats are
outside the embedding; `other` is any key type that raises
`TypeError`). -/
inductive PyKey : Type where
| str (s : List Char) : PyKey
| int (n : Int) : PyKey
| bool (b : Bool) : PyKey
| none : PyKey
| other : PyKey

mutual

/-- The unrestricted Python value domain as `json.dumps` sees it:
the JSON-native constructors plus tuples and arbitrarily keyed dicts.
`obj` is any value the encoder rejects with a `TypeError`. -/
inductive PyObj : Type where
| none : PyObj
| bool (b : Bool) : PyObj
| int (n : Int) : PyObj
| str (s : List Char) : PyObj
| tuple (xs : PyObjList) : PyObj
| list (xs : PyObjList) : PyObj
| dict (xs : PyObjDict) : PyObj
| obj : PyObj

inductive PyObjList : Type where
| nil : PyObjList
| cons (v : PyObj) (tl : PyObjList) : PyObjList

inductive PyObjDict : Type where
| nil : PyObjDict
| cons (k : PyKey) (v : PyObj) (tl : PyObjDict) : PyObjDict

end

/-- The encoded (quoted, escaped) form of a dict key after the
encoder's key coercion in `_iterencode_dict`. -/
def pyKeyEnc : PyKey → Option (List Char)
| .str s => some (encString s)
| .int n => some (encString (intRepr n))
| .bool true => some (encString (['t', 'r', 'u', 'e']))
| .bool false => some (encString (['f', 'a', 'l', 's', 'e']))
| .none => some (encString (['n', 'u', 'l', 'l']))
| .other => Option.none

mutual

/-- `json.dumps` with default arguments over the full value domain:
tuples encode as arrays, dict keys are coerced via `pyKeyEnc`. -/
def pyObjDumps : PyObj → Option (List Char)
| .none => some (['n', 'u', 'l', 'l'])
| .bool true => some (['t', 'r', 'u', 'e'])
| .bool false => some (['f', 'a', 'l', 's', 'e'])
| .int n => some (intRepr n)
| .str s => some (encString s)
| .tuple xs =>
  match pyObjDumpsItems xs with
  | some body => some ('[' :: body ++ [']'])
  | Option.none => Option.none
| .list xs =>
  match pyObjDumpsItems xs with
  | some body => some ('[' :: body ++ [']'])
  | Option.none => Option.none
| .dict xs =>
  match pyObjDumpsMembers xs with
  | some body => some ('\x7b' :: body ++ ['\x7d'])
  | Option.none => Option.none
| .obj => Option.none

def pyObjDumpsItems : PyObjList → Option (List Char)
| .nil => some ([])
| .cons v .nil => pyObjDumps v
| .cons v (.cons w tl) =>
  match pyObjDumps v, pyObjDumpsItems (.cons w tl) with
  | some a, some b => some (a ++ ',' :: ' ' :: b)
  | _, _ => Option.none

def pyObjDumpsMembers : PyObjDict → Option (List Char)
| .nil => some ([])
| .cons k v .nil =>
  match pyKeyEnc k, pyObjDumps v with
  | some ke, some a => some (ke ++ ':' :: ' ' :: a)
  | _, _ => Option.none
| .cons k v (.cons k2 w tl) =>
  match pyKeyEnc k, pyObjDumps v, pyObjDumpsMembers (.cons k2 w tl) with
  | some ke, some a, some b => some (ke ++ ':' :: ' ' :: a ++ ',' :: ' ' :: b)
  | _, _, _ => Option.none

end

mutual

/-- The inclusion of the JSON-native values into the full Python
domain: what `json.loads` output is as a Python value (JSON arrays are
Python lists, JSON objects are string-keyed dicts). -/
def toPyObj : PyValue → PyObj
| .none => .none
| .bool b => .bool b
| .int n => .int n
| .str s => .str s
| .list xs => .list (toPyObjList xs)
| .dict xs => .dict (toPyObjDict xs)
| .obj => .obj

def toPyObjList : PyList → PyObjList
| .nil => .nil
| .cons v tl => .cons (toPyObj v) (toPyObjList tl)

def toPyObjDict : PyDict → PyObjDict
| .nil => .nil
| .cons k v tl => .cons (PyKey.str k) (toPyObj v) (toPyObjDict tl)

end

mutual

/-- On the JSON-native fragment the two encoders agree: `pyObjDumps`
restricted along the inclusion is `pyDumps`. -/
theorem pyObjDumps_toPyObj (v : PyValue) : pyObjDumps (toPyObj v) = pyDumps v := by
  cases v with
  | none => rfl
  | bool b => cases b <;> rfl
  | int n => rfl
  | str s => rfl
  | list xs =>
    have h := pyObjDumpsItems_toPyObjList xs
    simp only [toPyObj, pyObjDumps, pyDumps, h]
  | dict xs =>
    have h := pyObjDumpsMembers_toPyObjDict xs
    simp only [toPyObj, pyObjDumps, pyDumps, h]
  | obj => rfl

theorem pyObjDumpsItems_toPyObjList (xs : PyList) :
    pyObjDumpsItems (toPyObjList xs) = pyDumpsItems xs := by
  cases xs with
  | nil => rfl
  | cons v tl =>
    cases tl with
    | nil =>
      simp only [toPyObjList, pyObjDumpsItems, pyDumpsItems]
      exact pyObjDumps_toPyObj v
    | cons w tl2 =>
      have h1 := pyObjDumps_toPyObj v
      have h2 := pyObjDumpsItems_toPyObjList (.cons w tl2)
      simp only [toPyObjList, pyObjDumpsItems, pyDumpsItems, h1] at h2 ⊢
      rw [h2]

theorem pyObjDumpsMembers_toPyObjDict (xs : PyDict) :
    pyObjDumpsMembers (toPyObjDict xs) = pyDumpsMembers xs := by
  cases xs with
  | nil => rfl
  | cons k v tl =>
    cases tl with
    | nil =>
      have h1 := pyObjDumps_toPyObj v
      simp only [toPyObjDict, pyObjDumpsMembers, pyDumpsMembers, pyKeyEnc, h1]
      cases pyDumps v <;> rfl
    | cons k2 w tl2 =>
      have h1 := pyObjDumps_toPyObj v
      have h2 := pyObjDumpsMembers_toPyObjDict (.cons k2 w tl2)
      simp only [toPyObjDict, pyObjDumpsMembers, pyDumpsMembers, pyKeyEnc, h1] at h2 ⊢
      rw [h2]
      cases pyDumps v <;> cases pyDumpsMembers (PyDict.cons k2 w tl2) <;> rfl

end

/-! ## The JSON decoder (model of `json.loads`)

A fuel-indexed recursive-descent parser following the pure-Python
scanner in `json/scanner.py` and `json/decoder.py` (strict mode).  Fuel
is decremented on every recursive call, so any fuel larger than the size
of the decoded value suffices; the top-level entry point uses the input
length + 1.  Number parsing covers the integer fragment of the grammar
and answers `none` on a fraction or exponent part (floats are outside
the embedding). -/

/-- JSON whitespace. -/
def isWsChar (c : Char) : Bool :=
  c = ' ' || c = '\t' || c = '\n' || c = '\r'

/-- Skip JSON whitespace (the `_w(s, end).end()` idiom of the decoder). -/
def skipWs (s : List Char) : List Char :=
  s.dropWhile isWsChar

/-- ASCII decimal digit test on the model's characters. -/
def isDigitChar (c : Char) : Bool :=
  48 ≤ c.toNat && c.toNat ≤ 57

/-- Value of one hex digit, either case. -/
def hexVal (c : Char) : Option Nat :=
  let n := c.toNat
  if 48 ≤ n ∧ n ≤ 57 then some (n - 48)
  else if 97 ≤ n ∧ n ≤ 102 then some (n - 87)
  else if 65 ≤ n ∧ n ≤ 70 then some (n - 55)
  else Option.none

/-- Read exactly four hex digits (the `\uXXXX` payload). -/
def parseHex4 : List Char → Option (Nat × List Char)
| c1 :: c2 :: c3 :: c4 :: r =>
  match hexVal c1, hexVal c2, hexVal c3, hexVal c4 with
  | some a, some b, some c, some d => some (a * 4096 + b * 256 + c * 16 + d, r)
  | _, _, _, _ => Option.none
| _ => Option.none

/-- Decode one backslash escape (the input starts right after the
backslash), following `py_scanstring`: the eight shortcut escapes, and
`\uXXXX` with surrogate-pair combination.  A `\uXXXX` whose value is a
high surrogate not followed by a low surrogate is kept as is in Python;
such a code point is not a valid scalar value, so `Char.ofNat` maps it
to `'\0'` in the model — dumps output never contains one. -/
def parseEscape : List Char → Option (Char × List Char)
| [] => Option.none
| c :: r =>
  if c = '"' then some ('"', r)
  else if c = '\\' then some ('\\', r)
  else if c = '/' then some ('/', r)
  else if c = 'b' then some ('\x08', r)
  else if c = 'f' then some ('\x0c', r)
  else if c = 'n' then some ('\n', r)
  else if c = 'r' then some ('\x0d', r)
  else if c = 't' then some ('\t', r)
  else if c = 'u' then
    match parseHex4 r with
    | Option.none => Option.none
    | some (n, r2) =>
      if 0xd800 ≤ n ∧ n ≤ 0xdbff then
        match r2 with
        | '\\' :: 'u' :: r3 =>
          match parseHex4 r3 with
          | some (m, r4) =>
            if 0xdc00 ≤ m ∧ m ≤ 0xdfff then
              some (Char.ofNat (0x10000 + (n - 0xd800) * 0x400 + (m - 0xdc00)), r4)
            else some (Char.ofNat n, r2)
          | Option.none => some (Char.ofNat n, r2)
        | _ => some (Char.ofNat n, r2)
      else some (Char.ofNat n, r2)
  else Option.none

/-- Decode a JSON string body up to and including the closing quote.
Strict mode: an unescaped control character (code point below `0x20`)
is rejected.  Fuel bounds the number of decoded characters. -/
def parseStringBody : Nat → List Char → Option (List Char × List Char)
| 0, _ => Option.none
| _ + 1, [] => Option.none
| f + 1, c :: r =>
  if c = '"' then some ([], r)
  else if c = '\\' then
    match parseEscape r with
    | Option.none => Option.none
    | some (ch, r2) =>
      match parseStringBody f r2 with
      | some (s, r3) => some (ch :: s, r3)
      | Option.none => Option.none
  else if c.toNat < 32 then Option.none
  else
    match parseStringBody f r with
    | some (s, r3) => some (c :: s, r3)
    | Option.none => Option.none

/-- Accumulate a run of decimal digits (the integer part after its
first digit). -/
def takeDigits : List Char → Nat → Nat × List Char
| [], acc => (acc, [])
| c :: r, acc =>
  if isDigitChar c then takeDigits r (acc * 10 + (c.toNat - 48))
  else (acc, c :: r)

/-- Reject a fraction or exponent part after the integer digits: a
float literal is outside the embedding (Python would decode it to a
machine float). -/
def checkNoFloat : Nat × List Char → Option (Nat × List Char)
| (n, []) => some (n, [])
| (n, c :: r) =>
  if c = '.' || c = 'e' || c = 'E' then Option.none
  else some (n, c :: r)

/-- Parse an unsigned JSON integer: `0 | [1-9][0-9]*` (the grammar's
NUMBER_RE), so after a leading `0` no further digits are consumed. -/
def parseNum : List Char → Option (Nat × List Char)
| [] => Option.none
| c :: r =>
  if c = '0' then checkNoFloat (0, r)
  else if isDigitChar c then checkNoFloat (takeDigits r (c.toNat - 48))
  else Option.none

mutual

/-- Parse one JSON value, skipping leading whitespace.  Mirrors
`_scan_once`: keyword literals, strings, arrays, objects, numbers. -/
def parseValue : Nat → List Char → Option (PyValue × List Char)
| 0, _ => Option.none
| f + 1, input =>
  match skipWs input with
  | [] => Option.none
  | c :: r =>
    if c = 'n' then
      match r with
      | 'u' :: 'l' :: 'l' :: r2 => some (.none, r2)
      | _ => Option.none
    else if c = 't' then
      match r with
      | 'r' :: 'u' :: 'e' :: r2 => some (.bool true, r2)
      | _ => Option.none
    else if c = 'f' then
      match r with
      | 'a' :: 'l' :: 's' :: 'e' :: r2 => some (.bool false, r2)
      | _ => Option.none
    else if c = '"' then
      match parseStringBody f r with
      | some (s, r2) => some (.str s, r2)
      | Option.none => Option.none
    else if c = '[' then
      match skipWs r with
      | ']' :: r2 => some (.list .nil, r2)
      | r2 =>
        match parseItems f r2 with
        | some (xs, r3) => some (.list xs, r3)
        | Option.none => Option.none
    else if c = '\x7b' then
      match skipWs r with
      | '\x7d' :: r2 => some (.dict .nil, r2)
      | r2 =>
        match parseMembers f r2 with
        | some (xs, r3) => some (.dict xs, r3)
        | Option.none => Option.none
    else if c = '-' then
      match parseNum r with
      | some (n, r2) => some (.int (-(n : Int)), r2)
      | Option.none => Option.none
    else
      match parseNum (c :: r) with
      | some (n, r2) => some (.int (n : Int), r2)
      | Option.none => Option.none

/-- Parse the elements of a non-empty array after its `[`, consuming
the closing `]` (`JSONArray`: a value, then `,` and more values or
`]`; no trailing comma). -/
def parseItems : Nat → List Char → Option (PyList × List Char)
| 0, _ => Option.none
| f + 1, s =>
  match parseValue f s with
  | Option.none => Option.none
  | some (v, r) =>
    match skipWs r with
    | ',' :: r2 =>
      match parseItems f r2 with
      | some (tl, r3) => some (.cons v tl, r3)
      | Option.none => Option.none
    | ']' :: r2 => some (.cons v .nil, r2)
    | _ => Option.none

/-- Parse the entries of a non-empty object after its opening brace,
consuming the closing brace (`JSONObject`: a quoted key, `:`, a value,
then `,` and more entries or the closing brace). -/
def parseMembers : Nat → List Char → Option (PyDict × List Char)
| 0, _ => Option.none
| f + 1, s =>
  match skipWs s with
  | '"' :: r =>
    match parseStringBody f r with
    | Option.none => Option.none
    | some (k, r2) =>
      match skipWs r2 with
      | ':' :: r3 =>
        match parseValue f r3 with
        | Option.none => Option.none
        | some (v, r4) =>
          match skipWs r4 with
          | ',' :: r5 =>
            match parseMembers f r5 with
            | some (tl, r6) => some (.cons k v tl, r6)
            | Option.none => Option.none
          | '\x7d' :: r5 => some (.cons k v .nil, r5)
          | _ => Option.none
      | _ => Option.none
  | _ => Option.none

end

/-- Model of `json.loads`: parse one value, then require only
whitespace to remain (`JSONDecoder.decode` raises on extra data). -/
def jsonLoads (s : List Char) : Option PyValue :=
  match parseValue (s.length + 1) s with
  | some (v, r) => if skipWs r = [] then some v else Option.none
  | Option.none => Option.none

/-! ## Character-level helper lemmas -/

theorem toNat_ofNat_valid (n : Nat) (h : n.isValidChar) : (Char.ofNat n).toNat = n := by
  rw [Char.ofNat, dif_pos h]
  rfl

theorem char_toNat_valid (c : Char) : c.toNat.isValidChar := by
  rcases c.valid with h | h
  · exact Or.inl h
  · exact Or.inr ⟨h.1, h.2⟩

theorem char_eq_iff_toNat (c d : Char) : c = d ↔ c.toNat = d.toNat := by
  constructor
  · intro h; rw [h]
  · intro h
    exact Char.ext (UInt32.ext_iff.mpr h)

/-! ## Hex digit round-trip -/

theorem hexVal_hexDigitChar : ∀ n : Nat, n < 16 → hexVal (hexDigitChar n) = some n := by
  decide

theorem parseHex4_hex4 (n : Nat) (h : n < 65536) (r : List Char) :
    parseHex4 (hex4 n ++ r) = some (n, r) := by
  have h1 := hexVal_hexDigitChar (n / 4096 % 16) (Nat.mod_lt _ (by norm_num))
  have h2 := hexVal_hexDigitChar (n / 256 % 16) (Nat.mod_lt _ (by norm_num))
  have h3 := hexVal_hexDigitChar (n / 16 % 16) (Nat.mod_lt _ (by norm_num))
  have h4 := hexVal_hexDigitChar (n % 16) (Nat.mod_lt _ (by norm_num))
  have hval : n / 4096 % 16 * 4096 + n / 256 % 16 * 256 + n / 16 % 16 * 16 + n % 16 = n := by
    omega
  simp [hex4, parseHex4, h1, h2, h3, h4, hval]

/-! ## String escape round-trip -/

theorem stepEscape (f : Nat) (s r e : List Char) (ch : Char) (r2 : List Char)
    (hesc : parseEscape e = some (ch, r2)) (h : parseStringBody f r2 = some (s, r)) :
    parseStringBody (f + 1) ('\\' :: e) = some (ch :: s, r) := by
  have d1 : ¬('\\' = '"') := by decide
  simp only [parseStringBody, d1, if_false, ite_false, if_true, ite_true, eq_self_iff_true,
    hesc, h]

theorem stepPlain (f : Nat) (c : Char) (u s r : List Char) (h1 : ¬c = '"') (h2 : ¬c = '\\')
    (h3 : ¬c.toNat < 32) (h : parseStringBody f u = some (s, r)) :
    parseStringBody (f + 1) (c :: u) = some (c :: s, r) := by
  simp only [parseStringBody, h1, h2, h3, if_false, ite_false, h]

theorem escQuote (u : List Char) : parseEscape ('"' :: u) = some ('"', u) := by
  simp [parseEscape]

theorem escBackslash (u : List Char) : parseEscape ('\\' :: u) = some ('\\', u) := by
  simp [parseEscape]

theorem escB (u : List Char) : parseEscape ('b' :: u) = some ('\x08', u) := by
  simp [parseEscape]

theorem escF (u : List Char) : parseEscape ('f' :: u) = some ('\x0c', u) := by
  simp [parseEscape]

theorem escN (u : List Char) : parseEscape ('n' :: u) = some ('\n', u) := by
  simp [parseEscape]

theorem escR (u : List Char) : parseEscape ('r' :: u) = some ('\x0d', u) := by
  simp [parseEscape]

theorem escT (u : List Char) : parseEscape ('t' :: u) = some ('\t', u) := by
  simp [parseEscape]

theorem escUBmp (n : Nat) (u r2 : List Char) (hp : parseHex4 u = some (n, r2))
    (hr : ¬(0xd800 ≤ n ∧ n ≤ 0xdbff)) :
    parseEscape ('u' :: u) = some (Char.ofNat n, r2) := by
  have d2 : ¬('u' = '"') := by decide
  have d3 : ¬('u' = '\\') := by decide
  have d4 : ¬('u' = '/') := by decide
  have d5 : ¬('u' = 'b') := by decide
  have d6 : ¬('u' = 'f') := by decide
  have d7 : ¬('u' = 'n') := by decide
  have d8 : ¬('u' = 'r') := by decide
  have d9 : ¬('u' = 't') := by decide
  simp only [parseEscape, d2, d3, d4, d5, d6, d7, d8, d9, if_false, ite_false, if_true,
    ite_true, eq_self_iff_true, hp, hr, if_neg]

theorem escUPair (n m : Nat) (u r3 r4 : List Char)
    (hp1 : parseHex4 u = some (n, '\\' :: 'u' :: r3))
    (hn : 0xd800 ≤ n ∧ n ≤ 0xdbff)
    (hp2 : parseHex4 r3 = some (m, r4))
    (hm : 0xdc00 ≤ m ∧ m ≤ 0xdfff) :
    parseEscape ('u' :: u) = some (Char.ofNat (0x10000 + (n - 0xd800) * 0x400 + (m - 0xdc00)), r4) := by
  have d2 : ¬('u' = '"') := by decide
  have d3 : ¬('u' = '\\') := by decide
  have d4 : ¬('u' = '/') := by decide
  have d5 : ¬('u' = 'b') := by decide
  have d6 : ¬('u' = 'f') := by decide
  have d7 : ¬('u' = 'n') := by decide
  have d8 : ¬('u' = 'r') := by decide
  have d9 : ¬('u' = 't') := by decide
  simp only [parseEscape, d2, d3, d4, d5, d6, d7, d8, d9, if_false, ite_false, if_true,
    ite_true, eq_self_iff_true, hp1, hn, hp2, hm, and_self, if_pos]

theorem parseStringBody_encChar (c : Char) (f : Nat) (u s r : List Char)
    (h : parseStringBody f u = some (s, r)) :
    parseStringBody (f + 1) (encChar c ++ u) = some (c :: s, r) := by
  have hvalid := char_toNat_valid c
  by_cases h1 : c = '"'
  · subst h1
    simpa [encChar] using stepEscape f s r _ _ _ (escQuote u) h
  by_cases h2 : c = '\\'
  · subst h2
    simpa [encChar] using stepEscape f s r _ _ _ (escBackslash u) h
  by_cases h3 : c.toNat = 8
  · have hc : c = '\x08' := by rw [char_eq_iff_toNat]; simpa using h3
    subst hc
    simpa [encChar] using stepEscape f s r _ _ _ (escB u) h
  by_cases h4 : c.toNat = 12
  · have hc : c = '\x0c' := by rw [char_eq_iff_toNat]; simpa using h4
    subst hc
    simpa [encChar] using stepEscape f s r _ _ _ (escF u) h
  by_cases h5 : c.toNat = 10
  · have hc : c = '\n' := by rw [char_eq_iff_toNat]; simpa using h5
    subst hc
    simpa [encChar] using stepEscape f s r _ _ _ (escN u) h
  by_cases h6 : c.toNat = 13
  · have hc : c = '\x0d' := by rw [char_eq_iff_toNat]; simpa using h6
    subst hc
    simpa [encChar] using stepEscape f s r _ _ _ (escR u) h
  by_cases h7 : c.toNat = 9
  · have hc : c = '\t' := by rw [char_eq_iff_toNat]; simpa using h7
    subst hc
    simpa [encChar] using stepEscape f s r _ _ _ (escT u) h
  by_cases h8 : 32 ≤ c.toNat ∧ c.toNat ≤ 126
  · have hlt : ¬(c.toNat < 32) := by omega
    have := stepPlain f c u s r h1 h2 hlt h
    simpa [encChar, h1, h2, h3, h4, h5, h6, h7, h8] using this
  by_cases h9 : c.toNat ≤ 0xffff
  · have hrange : ¬(0xd800 ≤ c.toNat ∧ c.toNat ≤ 0xdbff) := by
      rcases hvalid with hv | hv
      · omega
      · omega
    have hp := parseHex4_hex4 c.toNat (by omega) u
    have hesc := escUBmp c.toNat (hex4 c.toNat ++ u) u hp hrange
    rw [Char.ofNat_toNat] at hesc
    have := stepEscape f s r _ _ _ hesc h
    simpa [encChar, h1, h2, h3, h4, h5, h6, h7, h8, h9, List.append_assoc] using this
  · have hn : 0x10000 ≤ c.toNat ∧ c.toNat < 0x110000 := by
      rcases hvalid with hv | hv
      · omega
      · omega
    have hdivle : (c.toNat - 0x10000) / 0x400 ≤ 0x3ff := by omega
    have hmodlt : (c.toNat - 0x10000) % 0x400 < 0x400 := Nat.mod_lt _ (by norm_num)
    have hp1 := parseHex4_hex4 (0xd800 + (c.toNat - 0x10000) / 0x400) (by omega)
      ('\\' :: 'u' :: (hex4 (0xdc00 + (c.toNat - 0x10000) % 0x400) ++ u))
    have hp2 := parseHex4_hex4 (0xdc00 + (c.toNat - 0x10000) % 0x400) (by omega) u
    have hesc := escUPair (0xd800 + (c.toNat - 0x10000) / 0x400)
      (0xdc00 + (c.toNat - 0x10000) % 0x400)
      (hex4 (0xd800 + (c.toNat - 0x10000) / 0x400) ++
        ('\\' :: 'u' :: (hex4 (0xdc00 + (c.toNat - 0x10000) % 0x400) ++ u)))
      (hex4 (0xdc00 + (c.toNat - 0x10000) % 0x400) ++ u) u hp1 (by omega) hp2 (by omega)
    have hchar : Char.ofNat (0x10000 + (0xd800 + (c.toNat - 0x10000) / 0x400 - 0xd800) * 0x400 +
        (0xdc00 + (c.toNat - 0x10000) % 0x400 - 0xdc00)) = c := by
      have h400 := Nat.div_add_mod (c.toNat - 0x10000) 0x400
      have heq : 0x10000 + (0xd800 + (c.toNat - 0x10000) / 0x400 - 0xd800) * 0x400 +
          (0xdc00 + (c.toNat - 0x10000) % 0x400 - 0xdc00) = c.toNat := by omega
      rw [heq, Char.ofNat_toNat]
    rw [hchar] at hesc
    have := stepEscape f s r _ _ _ hesc h
    simpa [encChar, h1, h2, h3, h4, h5, h6, h7, h8, h9, List.append_assoc] using this

theorem parseStringBody_encString (s : List Char) : ∀ (f : Nat) (t : List Char), s.length < f →
    parseStringBody f (s.flatMap encChar ++ ('"' :: t)) = some (s, t) := by
  induction s with
  | nil =>
    intro f t hf
    match f, hf with
    | f + 1, _ => simp [parseStringBody]
  | cons c s ih =>
    intro f t hf
    match f, hf with
    | f + 1, hf =>
      have hrec := ih f t (by simpa using Nat.lt_of_succ_lt_succ hf)
      have := parseStringBody_encChar c f (s.flatMap encChar ++ ('"' :: t)) s t hrec
      simpa [List.flatMap_cons, List.append_assoc] using this

/-! ## Number round-trip -/

/-- After a complete number the next character (if any) must not extend
it: not a digit and not the start of a fraction or exponent. -/
def numDelim : List Char → Bool
| [] => true
| c :: _ => !(isDigitChar c || c = '.' || c = 'e' || c = 'E')

theorem toNat_digitChar (d : Nat) (hd : d < 10) : (Char.ofNat (48 + d)).toNat = 48 + d :=
  toNat_ofNat_valid _ (Or.inl (by omega))

theorem isDigitChar_digitChar (d : Nat) (hd : d < 10) :
    isDigitChar (Char.ofNat (48 + d)) = true := by
  simp [isDigitChar, toNat_digitChar d hd]
  omega

theorem takeDigits_spec (ds : List Nat) : ∀ (acc : Nat) (rest : List Char),
    (∀ d ∈ ds, d < 10) → numDelim rest = true →
    takeDigits (ds.map (fun d => Char.ofNat (48 + d)) ++ rest) acc
      = (ds.foldl (fun a d => a * 10 + d) acc, rest) := by
  induction ds with
  | nil =>
    intro acc rest _ hrest
    match rest, hrest with
    | [], _ => simp [takeDigits]
    | c :: r, hrest =>
      have hc : isDigitChar c = false := by
        simp [numDelim] at hrest
        simp [hrest.1]
      simp [takeDigits, hc]
  | cons d ds ih =>
    intro acc rest hds hrest
    have hd : d < 10 := hds d (by simp)
    have hdig := isDigitChar_digitChar d hd
    have htn := toNat_digitChar d hd
    simp only [List.map_cons, List.cons_append, takeDigits, hdig, if_true, ite_true, htn]
    have hsub : 48 + d - 48 = d := by omega
    rw [hsub]
    exact ih (acc * 10 + d) rest (fun x hx => hds x (by simp [hx])) hrest

theorem foldl_digits (l : List Nat) : ∀ (a : Nat),
    l.foldl (fun a d => a * 10 + d) a = a * 10 ^ l.length + Nat.ofDigits 10 l.reverse := by
  induction l with
  | nil => intro a; simp
  | cons d t ih =>
    intro a
    rw [List.foldl_cons, ih (a * 10 + d), List.reverse_cons, Nat.ofDigits_append]
    simp [Nat.ofDigits_singleton, pow_succ]
    ring

theorem checkNoFloat_delim (n : Nat) (rest : List Char) (hrest : numDelim rest = true) :
    checkNoFloat (n, rest) = some (n, rest) := by
  match rest, hrest with
  | [], _ => simp [checkNoFloat]
  | c :: r, hrest =>
    simp [numDelim] at hrest
    simp [checkNoFloat, hrest]

theorem parseNum_natRepr (n : Nat) (rest : List Char) (hrest : numDelim rest = true) :
    parseNum (natRepr n ++ rest) = some (n, rest) := by
  by_cases hn : n = 0
  · subst hn
    simp only [natRepr, if_pos rfl, List.cons_append, List.nil_append, parseNum,
      if_true, ite_true, eq_self_iff_true]
    exact checkNoFloat_delim 0 rest hrest
  · have hne : Nat.digits 10 n ≠ [] := Nat.digits_ne_nil_iff_ne_zero.mpr hn
    obtain ⟨d0, ds, hrev⟩ : ∃ d0 ds, (Nat.digits 10 n).reverse = d0 :: ds := by
      match hrl : (Nat.digits 10 n).reverse with
      | [] =>
        rw [List.reverse_eq_nil_iff] at hrl
        exact absurd hrl hne
      | d0 :: ds => exact ⟨d0, ds, rfl⟩
    have hmem : ∀ d ∈ d0 :: ds, d < 10 := by
      intro d hd
      have : d ∈ Nat.digits 10 n := by
        rw [← List.mem_reverse, hrev]
        exact hd
      exact Nat.digits_lt_base (by norm_num) this
    have hd0 : d0 < 10 := hmem d0 (by simp)
    have hd0ne : d0 ≠ 0 := by
      have hlast := Nat.getLast_digit_ne_zero 10 hn
      have h1 : (Nat.digits 10 n).getLast? = some d0 := by
        rw [← List.head?_reverse, hrev]
        rfl
      have h2 : (Nat.digits 10 n).getLast? = some ((Nat.digits 10 n).getLast hne) :=
        List.getLast?_eq_getLast _ hne
      have h3 : d0 = (Nat.digits 10 n).getLast hne := by
        have := h1.symm.trans h2
        exact (Option.some.injEq _ _).mp this
      rw [h3]
      exact hlast
    have hc0 : ¬(Char.ofNat (48 + d0) = '0') := by
      rw [char_eq_iff_toNat, toNat_digitChar d0 hd0]
      have h0 : ('0' : Char).toNat = 48 := rfl
      omega
    have htake := takeDigits_spec ds d0 rest (fun x hx => hmem x (by simp [hx])) hrest
    have hfold : ds.foldl (fun a d => a * 10 + d) d0 = n := by
      rw [foldl_digits]
      have hofd : Nat.ofDigits 10 ((d0 :: ds).reverse) = n := by
        rw [← hrev, List.reverse_reverse]
        exact Nat.ofDigits_digits 10 n
      rw [List.reverse_cons, Nat.ofDigits_append, Nat.ofDigits_singleton,
        List.length_reverse] at hofd
      rw [← hofd]
      ring
    simp only [natRepr, if_neg hn, hrev, List.map_cons, List.cons_append, parseNum, hc0,
      if_false, ite_false, isDigitChar_digitChar d0 hd0, if_true, ite_true,
      toNat_digitChar d0 hd0]
    have hsub : 48 + d0 - 48 = d0 := by omega
    rw [hsub, htake, hfold]
    exact checkNoFloat_delim n rest hrest

/-! ## Sizes and input-shape facts for the main round-trip induction -/

mutual

/-- Fuel bound for parsing the encoding of a value. -/
def sizeV : PyValue → Nat
| .none => 1
| .bool _ => 1
| .int _ => 1
| .str s => s.length + 2
| .list xs => sizeL xs + 1
| .dict xs => sizeD xs + 1
| .obj => 1

def sizeL : PyList → Nat
| .nil => 0
| .cons v tl => sizeV v + sizeL tl + 1

def sizeD : PyDict → Nat
| .nil => 0
| .cons k v tl => k.length + sizeV v + sizeD tl + 1

end

theorem skipWs_cons_of_not_ws (c : Char) (t : List Char) (h : isWsChar c = false) :
    skipWs (c :: t) = c :: t := by
  simp [skipWs, List.dropWhile_cons, h]

theorem skipWs_append_ws (pre : List Char) : ∀ (x : List Char), pre.all isWsChar = true →
    skipWs (pre ++ x) = skipWs x := by
  induction pre with
  | nil => intro x _; rfl
  | cons c t ih =>
    intro x h
    simp only [List.all_cons, Bool.and_eq_true] at h
    simp only [List.cons_append, skipWs, List.dropWhile_cons, h.1, if_true, ite_true]
    exact ih x h.2

theorem char_facts_of_digit (c : Char) (h : isDigitChar c = true) :
    isWsChar c = false ∧ c ≠ ']' ∧ c ≠ 'n' ∧ c ≠ 't' ∧ c ≠ 'f' ∧ c ≠ '"' ∧ c ≠ '[' ∧
      c ≠ '\x7b' ∧ c ≠ '-' ∧ c ≠ '\x7d' := by
  simp only [isDigitChar, Bool.and_eq_true, decide_eq_true_eq] at h
  have hsp : (' ' : Char).toNat = 32 := rfl
  have htb : ('\t' : Char).toNat = 9 := rfl
  have hnl : ('\n' : Char).toNat = 10 := rfl
  have hcr : ('\x0d' : Char).toNat = 13 := rfl
  have e1 : (']' : Char).toNat = 93 := rfl
  have e2 : ('n' : Char).toNat = 110 := rfl
  have e3 : ('t' : Char).toNat = 116 := rfl
  have e4 : ('f' : Char).toNat = 102 := rfl
  have e5 : ('"' : Char).toNat = 34 := rfl
  have e6 : ('[' : Char).toNat = 91 := rfl
  have e7 : ('\x7b' : Char).toNat = 123 := rfl
  have e8 : ('-' : Char).toNat = 45 := rfl
  have e9 : ('\x7d' : Char).toNat = 125 := rfl
  refine ⟨?_, ?_, ?_, ?_, ?_, ?_, ?_, ?_, ?_, ?_⟩
  · simp only [isWsChar, Bool.or_eq_false_iff, decide_eq_false_iff_not, char_eq_iff_toNat,
      hsp, htb, hnl, hcr]
    refine ⟨⟨⟨?_, ?_⟩, ?_⟩, ?_⟩ <;> omega
  all_goals
    simp only [Ne, char_eq_iff_toNat, e1, e2, e3, e4, e5, e6, e7, e8, e9]
    omega

theorem natRepr_head (n : Nat) : ∃ c t, natRepr n = c :: t ∧ isDigitChar c = true := by
  by_cases hn : n = 0
  · subst hn
    refine ⟨'0', [], by simp [natRepr], by decide⟩
  · have hne : Nat.digits 10 n ≠ [] := Nat.digits_ne_nil_iff_ne_zero.mpr hn
    obtain ⟨d0, ds, hrev⟩ : ∃ d0 ds, (Nat.digits 10 n).reverse = d0 :: ds := by
      match hrl : (Nat.digits 10 n).reverse with
      | [] =>
        rw [List.reverse_eq_nil_iff] at hrl
        exact absurd hrl hne
      | d0 :: ds => exact ⟨d0, ds, rfl⟩
    have hd0 : d0 < 10 := by
      have : d0 ∈ Nat.digits 10 n := by
        rw [← List.mem_reverse, hrev]
        simp
      exact Nat.digits_lt_base (by norm_num) this
    refine ⟨Char.ofNat (48 + d0), ds.map (fun d => Char.ofNat (48 + d)), ?_, ?_⟩
    · simp [natRepr, hn, hrev]
    · exact isDigitChar_digitChar d0 hd0

/-- The first character of any `json.dumps` output: never whitespace,
never a closing bracket or brace. -/
theorem pyDumps_head (v : PyValue) (out : List Char) (h : pyDumps v = some out) :
    ∃ c t, out = c :: t ∧ isWsChar c = false ∧ c ≠ ']' ∧ c ≠ '\x7d' := by
  cases v with
  | none =>
    simp only [pyDumps, Option.some.injEq] at h
    exact ⟨'n', _, h.symm, by decide, by decide, by decide⟩
  | bool b =>
    cases b with
    | true =>
      simp only [pyDumps, Option.some.injEq] at h
      exact ⟨'t', _, h.symm, by decide, by decide, by decide⟩
    | false =>
      simp only [pyDumps, Option.some.injEq] at h
      exact ⟨'f', _, h.symm, by decide, by decide, by decide⟩
  | int n =>
    simp only [pyDumps, Option.some.injEq] at h
    by_cases hneg : n < 0
    · refine ⟨'-', natRepr n.natAbs, ?_, by decide, by decide, by decide⟩
      rw [← h]
      simp [intRepr, hneg]
    · obtain ⟨c, t, hct, hdig⟩ := natRepr_head n.toNat
      obtain ⟨hws, hrb, _, _, _, _, _, _, _, hcb⟩ := char_facts_of_digit c hdig
      refine ⟨c, t, ?_, hws, hrb, hcb⟩
      rw [← h]
      simp [intRepr, hneg, hct]
  | str s =>
    simp only [pyDumps, Option.some.injEq] at h
    refine ⟨'"', s.flatMap encChar ++ ['"'], ?_, by decide, by decide, by decide⟩
    rw [← h]
    simp [encString]
  | list xs =>
    simp only [pyDumps] at h
    cases hx : pyDumpsItems xs with
    | none => rw [hx] at h; exact absurd h (by simp)
    | some body =>
      rw [hx] at h
      simp only [Option.some.injEq] at h
      exact ⟨'[', _, h.symm, by decide, by decide, by decide⟩
  | dict xs =>
    simp only [pyDumps] at h
    cases hx : pyDumpsMembers xs with
    | none => rw [hx] at h; exact absurd h (by simp)
    | some body =>
      rw [hx] at h
      simp only [Option.some.injEq] at h
      exact ⟨'\x7b', _, h.symm, by decide, by decide, by decide⟩
  | obj => exact absurd h (by simp [pyDumps])

/-! ## One-step parsing lemmas -/

theorem pvStep_null (f : Nat) (pre rest : List Char) (hpre : pre.all isWsChar = true) :
    parseValue (f + 1) (pre ++ ('n' :: 'u' :: 'l' :: 'l' :: rest)) = some (.none, rest) := by
  have hskip : skipWs (pre ++ ('n' :: 'u' :: 'l' :: 'l' :: rest))
      = 'n' :: 'u' :: 'l' :: 'l' :: rest := by
    rw [skipWs_append_ws pre _ hpre]
    exact skipWs_cons_of_not_ws _ _ (by decide)
  simp only [parseValue, hskip]
  simp

theorem pvStep_true (f : Nat) (pre rest : List Char) (hpre : pre.all isWsChar = true) :
    parseValue (f + 1) (pre ++ ('t' :: 'r' :: 'u' :: 'e' :: rest)) = some (.bool true, rest) := by
  have hskip : skipWs (pre ++ ('t' :: 'r' :: 'u' :: 'e' :: rest))
      = 't' :: 'r' :: 'u' :: 'e' :: rest := by
    rw [skipWs_append_ws pre _ hpre]
    exact skipWs_cons_of_not_ws _ _ (by decide)
  simp only [parseValue, hskip]
  simp

theorem pvStep_false (f : Nat) (pre rest : List Char) (hpre : pre.all isWsChar = true) :
    parseValue (f + 1) (pre ++ ('f' :: 'a' :: 'l' :: 's' :: 'e' :: rest))
      = some (.bool false, rest) := by
  have hskip : skipWs (pre ++ ('f' :: 'a' :: 'l' :: 's' :: 'e' :: rest))
      = 'f' :: 'a' :: 'l' :: 's' :: 'e' :: rest := by
    rw [skipWs_append_ws pre _ hpre]
    exact skipWs_cons_of_not_ws _ _ (by decide)
  simp only [parseValue, hskip]
  simp

theorem pvStep_str (f : Nat) (pre r s rest : List Char) (hpre : pre.all isWsChar = true)
    (hs : parseStringBody f r = some (s, rest)) :
    parseValue (f + 1) (pre ++ '"' :: r) = some (.str s, rest) := by
  have hskip : skipWs (pre ++ '"' :: r) = '"' :: r := by
    rw [skipWs_append_ws pre _ hpre]
    exact skipWs_cons_of_not_ws _ _ (by decide)
  simp only [parseValue, hskip]
  simp [hs]

theorem pvStep_nat (f : Nat) (pre : List Char) (c : Char) (r rest : List Char) (m : Nat)
    (hpre : pre.all isWsChar = true) (hc : isDigitChar c = true)
    (hnum : parseNum (c :: r) = some (m, rest)) :
    parseValue (f + 1) (pre ++ c :: r) = some (.int (m : Int), rest) := by
  obtain ⟨hws, _, hn, ht, hf, hq, hlb, hob, hmi, _⟩ := char_facts_of_digit c hc
  have hskip : skipWs (pre ++ c :: r) = c :: r := by
    rw [skipWs_append_ws pre _ hpre]
    exact skipWs_cons_of_not_ws _ _ hws
  simp only [parseValue, hskip]
  simp [hn, ht, hf, hq, hlb, hob, hmi, hnum]

theorem pvStep_neg (f : Nat) (pre r rest : List Char) (m : Nat)
    (hpre : pre.all isWsChar = true) (hnum : parseNum r = some (m, rest)) :
    parseValue (f + 1) (pre ++ '-' :: r) = some (.int (-(m : Int)), rest) := by
  have hskip : skipWs (pre ++ '-' :: r) = '-' :: r := by
    rw [skipWs_append_ws pre _ hpre]
    exact skipWs_cons_of_not_ws _ _ (by decide)
  simp only [parseValue, hskip]
  simp [hnum]

theorem pvStep_arr_nil (f : Nat) (pre rest : List Char) (hpre : pre.all isWsChar = true) :
    parseValue (f + 1) (pre ++ '[' :: ']' :: rest) = some (.list .nil, rest) := by
  have hskip : skipWs (pre ++ '[' :: ']' :: rest) = '[' :: ']' :: rest := by
    rw [skipWs_append_ws pre _ hpre]
    exact skipWs_cons_of_not_ws _ _ (by decide)
  simp only [parseValue, hskip]
  simp [skipWs_cons_of_not_ws ']' rest (by decide)]

theorem pvStep_arr (f : Nat) (pre rest : List Char) (xs : PyList) (c : Char) (t : List Char)
    (hpre : pre.all isWsChar = true) (hcw : isWsChar c = false) (hcb : c ≠ ']')
    (hitems : parseItems f (c :: t) = some (xs, rest)) :
    parseValue (f + 1) (pre ++ '[' :: c :: t) = some (.list xs, rest) := by
  have hskip : skipWs (pre ++ '[' :: c :: t) = '[' :: c :: t := by
    rw [skipWs_append_ws pre _ hpre]
    exact skipWs_cons_of_not_ws _ _ (by decide)
  simp only [parseValue, hskip]
  simp only [skipWs_cons_of_not_ws c t hcw]
  simp only [show ¬('[' = 'n') from by decide, show ¬('[' = 't') from by decide,
    show ¬('[' = 'f') from by decide, show ¬('[' = '"') from by decide,
    if_false, ite_false, if_true, ite_true, eq_self_iff_true]
  split
  · next r2 heq =>
    rw [List.cons.injEq] at heq
    exact absurd heq.1 hcb
  · next =>
    simp [hitems]

theorem pvStep_obj_nil (f : Nat) (pre rest : List Char) (hpre : pre.all isWsChar = true) :
    parseValue (f + 1) (pre ++ '\x7b' :: '\x7d' :: rest) = some (.dict .nil, rest) := by
  have hskip : skipWs (pre ++ '\x7b' :: '\x7d' :: rest) = '\x7b' :: '\x7d' :: rest := by
    rw [skipWs_append_ws pre _ hpre]
    exact skipWs_cons_of_not_ws _ _ (by decide)
  simp only [parseValue, hskip]
  simp [skipWs_cons_of_not_ws '\x7d' rest (by decide)]

theorem pvStep_obj (f : Nat) (pre rest t : List Char) (xs : PyDict)
    (hpre : pre.all isWsChar = true)
    (hmem : parseMembers f ('"' :: t) = some (xs, rest)) :
    parseValue (f + 1) (pre ++ '\x7b' :: '"' :: t) = some (.dict xs, rest) := by
  have hskip : skipWs (pre ++ '\x7b' :: '"' :: t) = '\x7b' :: '"' :: t := by
    rw [skipWs_append_ws pre _ hpre]
    exact skipWs_cons_of_not_ws _ _ (by decide)
  simp only [parseValue, hskip]
  simp only [skipWs_cons_of_not_ws '"' t (by decide)]
  simp only [show ¬('\x7b' = 'n') from by decide, show ¬('\x7b' = 't') from by decide,
    show ¬('\x7b' = 'f') from by decide, show ¬('\x7b' = '"') from by decide,
    show ¬('\x7b' = '[') from by decide,
    if_false, ite_false, if_true, ite_true, eq_self_iff_true]
  split
  · next r2 heq =>
    rw [List.cons.injEq] at heq
    exact absurd heq.1 (by decide)
  · next =>
    simp [hmem]

theorem piStep_last (f : Nat) (u r rest : List Char) (v : PyValue)
    (hv : parseValue f u = some (v, r)) (hr : skipWs r = ']' :: rest) :
    parseItems (f + 1) u = some (.cons v .nil, rest) := by
  simp only [parseItems, hv, hr]

theorem piStep_more (f : Nat) (u r r2 rest : List Char) (v : PyValue) (tl : PyList)
    (hv : parseValue f u = some (v, r)) (hr : skipWs r = ',' :: r2)
    (hrec : parseItems f r2 = some (tl, rest)) :
    parseItems (f + 1) u = some (.cons v tl, rest) := by
  simp only [parseItems, hv, hr, hrec]

theorem pmStep_last (f : Nat) (pre r r2 r3 r4 rest : List Char) (k : List Char) (v : PyValue)
    (hpre : pre.all isWsChar = true)
    (hk : parseStringBody f r = some (k, r2))
    (hr2 : skipWs r2 = ':' :: r3)
    (hv : parseValue f r3 = some (v, r4))
    (hr4 : skipWs r4 = '\x7d' :: rest) :
    parseMembers (f + 1) (pre ++ '"' :: r) = some (.cons k v .nil, rest) := by
  have hskip : skipWs (pre ++ '"' :: r) = '"' :: r := by
    rw [skipWs_append_ws pre _ hpre]
    exact skipWs_cons_of_not_ws _ _ (by decide)
  simp only [parseMembers, hskip, hk, hr2, hv, hr4]

theorem pmStep_more (f : Nat) (pre r r2 r3 r4 r5 rest : List Char) (k : List Char) (v : PyValue)
    (tl : PyDict)
    (hpre : pre.all isWsChar = true)
    (hk : parseStringBody f r = some (k, r2))
    (hr2 : skipWs r2 = ':' :: r3)
    (hv : parseValue f r3 = some (v, r4))
    (hr4 : skipWs r4 = ',' :: r5)
    (hrec : parseMembers f r5 = some (tl, rest)) :
    parseMembers (f + 1) (pre ++ '"' :: r) = some (.cons k v tl, rest) := by
  have hskip : skipWs (pre ++ '"' :: r) = '"' :: r := by
    rw [skipWs_append_ws pre _ hpre]
    exact skipWs_cons_of_not_ws _ _ (by decide)
  simp only [parseMembers, hskip, hk, hr2, hv, hr4, hrec]

theorem sizeV_pos (v : PyValue) : 1 ≤ sizeV v := by
  cases v <;> simp [sizeV]

theorem pyDumpsItems_head (v : PyValue) (tl : PyList) (body : List Char)
    (h : pyDumpsItems (.cons v tl) = some body) :
    ∃ c t, body = c :: t ∧ isWsChar c = false ∧ c ≠ ']' ∧ c ≠ '\x7d' := by
  cases tl with
  | nil =>
    simp only [pyDumpsItems] at h
    exact pyDumps_head v body h
  | cons w tl2 =>
    simp only [pyDumpsItems] at h
    cases ha : pyDumps v with
    | none => rw [ha] at h; exact absurd h (by simp)
    | some a =>
      cases hb : pyDumpsItems (.cons w tl2) with
      | none => rw [ha, hb] at h; exact absurd h (by simp)
      | some b =>
        rw [ha, hb] at h
        simp only [Option.some.injEq] at h
        obtain ⟨c, t, hct, hws, hrb, hob⟩ := pyDumps_head v a ha
        refine ⟨c, t ++ ',' :: ' ' :: b, ?_, hws, hrb, hob⟩
        rw [← h, hct]
        simp

theorem pyDumpsMembers_head (k : List Char) (v : PyValue) (tl : PyDict) (body : List Char)
    (h : pyDumpsMembers (.cons k v tl) = some body) :
    ∃ t, body = '"' :: t := by
  cases tl with
  | nil =>
    simp only [pyDumpsMembers] at h
    cases ha : pyDumps v with
    | none => rw [ha] at h; exact absurd h (by simp)
    | some a =>
      rw [ha] at h
      simp only [Option.some.injEq] at h
      refine ⟨k.flatMap encChar ++ ('"' :: ':' :: ' ' :: a), ?_⟩
      rw [← h]
      simp [encString]
  | cons k2 w tl2 =>
    simp only [pyDumpsMembers] at h
    cases ha : pyDumps v with
    | none => rw [ha] at h; exact absurd h (by simp)
    | some a =>
      cases hb : pyDumpsMembers (.cons k2 w tl2) with
      | none => rw [ha, hb] at h; exact absurd h (by simp)
      | some b =>
        rw [ha, hb] at h
        simp only [Option.some.injEq] at h
        refine ⟨k.flatMap encChar ++ ('"' :: ':' :: ' ' :: (a ++ ',' :: ' ' :: b)), ?_⟩
        rw [← h]
        simp [encString]

/-! ## Main round-trip theorem: parsing inverts dumping -/

theorem parse_pyDumps : ∀ fuel : Nat,
    (∀ v out rest pre, pyDumps v = some out → sizeV v < fuel → numDelim rest = true →
      pre.all isWsChar = true → parseValue fuel (pre ++ out ++ rest) = some (v, rest))
    ∧ (∀ v tl out rest pre, pyDumpsItems (.cons v tl) = some out →
      sizeL (.cons v tl) < fuel → pre.all isWsChar = true →
      parseItems fuel (pre ++ out ++ ']' :: rest) = some (.cons v tl, rest))
    ∧ (∀ k v tl out rest pre, pyDumpsMembers (.cons k v tl) = some out →
      sizeD (.cons k v tl) < fuel → pre.all isWsChar = true →
      parseMembers fuel (pre ++ out ++ '\x7d' :: rest) = some (.cons k v tl, rest)) := by
  intro fuel
  induction fuel with
  | zero =>
    refine ⟨?_, ?_, ?_⟩
    · intro v out rest pre _ hs _ _
      exact absurd hs (by omega)
    · intro v tl out rest pre _ hs _
      exact absurd hs (by omega)
    · intro k v tl out rest pre _ hs _
      exact absurd hs (by omega)
  | succ f ih =>
    obtain ⟨ihA, ihB, ihC⟩ := ih
    refine ⟨?_, ?_, ?_⟩
    · intro v out rest pre hd hs hrest hpre
      cases v with
      | none =>
        simp only [pyDumps, Option.some.injEq] at hd
        subst hd
        simpa using pvStep_null f pre rest hpre
      | bool b =>
        cases b with
        | true =>
          simp only [pyDumps, Option.some.injEq] at hd
          subst hd
          simpa using pvStep_true f pre rest hpre
        | false =>
          simp only [pyDumps, Option.some.injEq] at hd
          subst hd
          simpa using pvStep_false f pre rest hpre
      | int n =>
        simp only [pyDumps, Option.some.injEq] at hd
        by_cases hneg : n < 0
        · rw [intRepr, if_pos hneg] at hd
          subst hd
          have hnum := parseNum_natRepr n.natAbs rest hrest
          have hstep := pvStep_neg f pre (natRepr n.natAbs ++ rest) rest n.natAbs hpre hnum
          have hcast : -|n| = n := by
            rw [abs_of_neg hneg]
            ring
          simpa [hcast, List.append_assoc] using hstep
        · have hnonneg : 0 ≤ n := by omega
          rw [intRepr, if_neg hneg] at hd
          subst hd
          obtain ⟨c, t, hct, hdig⟩ := natRepr_head n.toNat
          have hnum := parseNum_natRepr n.toNat rest hrest
          rw [hct] at hnum
          have hnum2 : parseNum (c :: (t ++ rest)) = some (n.toNat, rest) := by
            simpa using hnum
          have hstep := pvStep_nat f pre c (t ++ rest) rest n.toNat hpre hdig hnum2
          have hcast : (n.toNat : Int) = n := Int.toNat_of_nonneg hnonneg
          rw [hct]
          simpa [hcast, List.append_assoc] using hstep
      | str s =>
        simp only [pyDumps, Option.some.injEq] at hd
        subst hd
        have hlen : s.length < f := by
          simp only [sizeV] at hs
          omega
        have hbody := parseStringBody_encString s f rest hlen
        have hstep := pvStep_str f pre (s.flatMap encChar ++ ('"' :: rest)) s rest hpre hbody
        simpa [encString, List.append_assoc] using hstep
      | list xs =>
        simp only [pyDumps] at hd
        cases hx : pyDumpsItems xs with
        | none => rw [hx] at hd; exact absurd hd (by simp)
        | some body =>
          rw [hx] at hd
          simp only [Option.some.injEq] at hd
          subst hd
          cases xs with
          | nil =>
            have hb : body = [] := by simpa [pyDumpsItems] using hx
            subst hb
            simpa using pvStep_arr_nil f pre rest hpre
          | cons v tl =>
            have hsl : sizeL (.cons v tl) < f := by
              simp only [sizeV] at hs
              omega
            have hitems := ihB v tl body rest [] hx hsl rfl
            obtain ⟨c, t, hct, hws, hrb, hob⟩ := pyDumpsItems_head v tl body hx
            subst hct
            have hitems2 : parseItems f (c :: (t ++ ']' :: rest)) = some (.cons v tl, rest) := by
              simpa using hitems
            have hstep := pvStep_arr f pre rest (.cons v tl) c (t ++ ']' :: rest)
              hpre hws hrb hitems2
            simpa [List.append_assoc] using hstep
      | dict xs =>
        simp only [pyDumps] at hd
        cases hx : pyDumpsMembers xs with
        | none => rw [hx] at hd; exact absurd hd (by simp)
        | some body =>
          rw [hx] at hd
          simp only [Option.some.injEq] at hd
          subst hd
          cases xs with
          | nil =>
            have hb : body = [] := by simpa [pyDumpsMembers] using hx
            subst hb
            simpa using pvStep_obj_nil f pre rest hpre
          | cons k v tl =>
            have hsd : sizeD (.cons k v tl) < f := by
              simp only [sizeV] at hs
              omega
            have hmem := ihC k v tl body rest [] hx hsd rfl
            obtain ⟨t, hct⟩ := pyDumpsMembers_head k v tl body hx
            subst hct
            have hmem2 : parseMembers f ('"' :: (t ++ '\x7d' :: rest))
                = some (.cons k v tl, rest) := by
              simpa using hmem
            have hstep := pvStep_obj f pre rest (t ++ '\x7d' :: rest) (.cons k v tl) hpre hmem2
            simpa [List.append_assoc] using hstep
      | obj => exact absurd hd (by simp [pyDumps])
    · intro v tl out rest pre hd hs hpre
      cases tl with
      | nil =>
        simp only [pyDumpsItems] at hd
        have hsv : sizeV v < f := by
          simp only [sizeL] at hs
          omega
        have hv := ihA v out (']' :: rest) pre hd hsv rfl hpre
        exact piStep_last f (pre ++ out ++ ']' :: rest) (']' :: rest) rest v hv
          (skipWs_cons_of_not_ws _ _ (by decide))
      | cons w tl2 =>
        simp only [pyDumpsItems] at hd
        cases ha : pyDumps v with
        | none => rw [ha] at hd; exact absurd hd (by simp)
        | some a =>
          cases hb : pyDumpsItems (.cons w tl2) with
          | none => rw [ha, hb] at hd; exact absurd hd (by simp)
          | some b =>
            rw [ha, hb] at hd
            simp only [Option.some.injEq] at hd
            subst hd
            have hsv : sizeV v < f := by
              simp only [sizeL] at hs
              omega
            have hsl2 : sizeL (.cons w tl2) < f := by
              simp only [sizeL] at hs ⊢
              have h1 := sizeV_pos v
              omega
            have hv := ihA v a (',' :: ' ' :: (b ++ ']' :: rest)) pre ha hsv rfl hpre
            have hrec := ihB w tl2 b rest [' '] hb hsl2 rfl
            have hrec2 : parseItems f (' ' :: (b ++ ']' :: rest))
                = some (.cons w tl2, rest) := by
              simpa using hrec
            have hstep := piStep_more f (pre ++ a ++ (',' :: ' ' :: (b ++ ']' :: rest)))
              (',' :: ' ' :: (b ++ ']' :: rest)) (' ' :: (b ++ ']' :: rest)) rest v (.cons w tl2)
              hv (skipWs_cons_of_not_ws _ _ (by decide)) hrec2
            simpa [List.append_assoc] using hstep
    · intro k v tl out rest pre hd hs hpre
      cases tl with
      | nil =>
        simp only [pyDumpsMembers] at hd
        cases ha : pyDumps v with
        | none => rw [ha] at hd; exact absurd hd (by simp)
        | some a =>
          rw [ha] at hd
          simp only [Option.some.injEq] at hd
          subst hd
          have hkl : k.length < f := by
            simp only [sizeD] at hs
            have := sizeV_pos v
            omega
          have hsv : sizeV v < f := by
            simp only [sizeD] at hs
            omega
          have hk := parseStringBody_encString k f (':' :: ' ' :: (a ++ '\x7d' :: rest)) hkl
          have hv := ihA v a ('\x7d' :: rest) [' '] ha hsv rfl rfl
          have hv2 : parseValue f (' ' :: (a ++ '\x7d' :: rest)) = some (v, '\x7d' :: rest) := by
            simpa using hv
          have hstep := pmStep_last f pre
            (k.flatMap encChar ++ ('"' :: (':' :: ' ' :: (a ++ '\x7d' :: rest))))
            (':' :: ' ' :: (a ++ '\x7d' :: rest)) (' ' :: (a ++ '\x7d' :: rest)) ('\x7d' :: rest)
            rest k v hpre hk (skipWs_cons_of_not_ws _ _ (by decide)) hv2
            (skipWs_cons_of_not_ws _ _ (by decide))
          simpa [encString, List.append_assoc] using hstep
      | cons k2 w tl2 =>
        simp only [pyDumpsMembers] at hd
        cases ha : pyDumps v with
        | none => rw [ha] at hd; exact absurd hd (by simp)
        | some a =>
          cases hb : pyDumpsMembers (.cons k2 w tl2) with
          | none => rw [ha, hb] at hd; exact absurd hd (by simp)
          | some b =>
            rw [ha, hb] at hd
            simp only [Option.some.injEq] at hd
            subst hd
            have hkl : k.length < f := by
              simp only [sizeD] at hs
              have := sizeV_pos v
              omega
            have hsv : sizeV v < f := by
              simp only [sizeD] at hs
              omega
            have hsd2 : sizeD (.cons k2 w tl2) < f := by
              simp only [sizeD] at hs ⊢
              have h1 := sizeV_pos v
              omega
            have hk := parseStringBody_encString k f
              (':' :: ' ' :: (a ++ ',' :: ' ' :: (b ++ '\x7d' :: rest))) hkl
            have hv := ihA v a (',' :: ' ' :: (b ++ '\x7d' :: rest)) [' '] ha hsv rfl rfl
            have hv2 : parseValue f (' ' :: (a ++ ',' :: ' ' :: (b ++ '\x7d' :: rest)))
                = some (v, ',' :: ' ' :: (b ++ '\x7d' :: rest)) := by
              simpa using hv
            have hrec := ihC k2 w tl2 b rest [' '] hb hsd2 rfl
            have hrec2 : parseMembers f (' ' :: (b ++ '\x7d' :: rest))
                = some (.cons k2 w tl2, rest) := by
              simpa using hrec
            have hstep := pmStep_more f pre
              (k.flatMap encChar ++ ('"' :: (':' :: ' ' :: (a ++ ',' :: ' ' ::
                (b ++ '\x7d' :: rest)))))
              (':' :: ' ' :: (a ++ ',' :: ' ' :: (b ++ '\x7d' :: rest)))
              (' ' :: (a ++ ',' :: ' ' :: (b ++ '\x7d' :: rest)))
              (',' :: ' ' :: (b ++ '\x7d' :: rest))
              (' ' :: (b ++ '\x7d' :: rest)) rest k v (.cons k2 w tl2)
              hpre hk (skipWs_cons_of_not_ws _ _ (by decide)) hv2
              (skipWs_cons_of_not_ws _ _ (by decide)) hrec2
            simpa [encString, List.append_assoc] using hstep

/-! ## Size is bounded by output length -/

theorem encChar_length_pos (c : Char) : 1 ≤ (encChar c).length := by
  by_cases h1 : c = '"'
  · subst h1; simp [encChar]
  by_cases h2 : c = '\\'
  · subst h2; simp [encChar]
  by_cases h3 : c.toNat = 8
  · simp [encChar, h1, h2, h3]
  by_cases h4 : c.toNat = 12
  · simp [encChar, h1, h2, h3, h4]
  by_cases h5 : c.toNat = 10
  · simp [encChar, h1, h2, h3, h4, h5]
  by_cases h6 : c.toNat = 13
  · simp [encChar, h1, h2, h3, h4, h5, h6]
  by_cases h7 : c.toNat = 9
  · simp [encChar, h1, h2, h3, h4, h5, h6, h7]
  by_cases h8 : 32 ≤ c.toNat ∧ c.toNat ≤ 126
  · simp [encChar, h1, h2, h3, h4, h5, h6, h7, h8]
  by_cases h9 : c.toNat ≤ 0xffff
  · simp [encChar, h1, h2, h3, h4, h5, h6, h7, h8, h9, hex4]
  · simp [encChar, h1, h2, h3, h4, h5, h6, h7, h8, h9, hex4]

theorem flatMap_encChar_length (s : List Char) : s.length ≤ (s.flatMap encChar).length := by
  induction s with
  | nil => simp
  | cons c t ih =>
    simp only [List.flatMap_cons, List.length_append, List.length_cons]
    have := encChar_length_pos c
    omega

theorem natRepr_length_pos (n : Nat) : 1 ≤ (natRepr n).length := by
  obtain ⟨c, t, hct, _⟩ := natRepr_head n
  simp [hct]

mutual

theorem dumps_size_v (v : PyValue) : ∀ out, pyDumps v = some out → sizeV v ≤ out.length := by
  cases v with
  | none => intro out h; simp only [pyDumps, Option.some.injEq] at h; subst h; simp [sizeV]
  | bool b =>
    cases b with
    | true => intro out h; simp only [pyDumps, Option.some.injEq] at h; subst h; simp [sizeV]
    | false => intro out h; simp only [pyDumps, Option.some.injEq] at h; subst h; simp [sizeV]
  | int n =>
    intro out h
    simp only [pyDumps, Option.some.injEq] at h
    subst h
    simp only [sizeV, intRepr]
    split_ifs
    · simp only [List.length_cons]
      have := natRepr_length_pos n.natAbs
      omega
    · exact natRepr_length_pos n.toNat
  | str s =>
    intro out h
    simp only [pyDumps, Option.some.injEq] at h
    subst h
    simp only [sizeV, encString, List.length_cons, List.length_append, List.length_cons,
      List.length_nil]
    have := flatMap_encChar_length s
    omega
  | list xs =>
    intro out h
    simp only [pyDumps] at h
    cases hx : pyDumpsItems xs with
    | none => rw [hx] at h; exact absurd h (by simp)
    | some body =>
      rw [hx] at h
      simp only [Option.some.injEq] at h
      subst h
      have := dumps_size_l xs body hx
      simp only [sizeV, List.length_cons, List.length_append, List.length_cons, List.length_nil]
      omega
  | dict xs =>
    intro out h
    simp only [pyDumps] at h
    cases hx : pyDumpsMembers xs with
    | none => rw [hx] at h; exact absurd h (by simp)
    | some body =>
      rw [hx] at h
      simp only [Option.some.injEq] at h
      subst h
      have := dumps_size_d xs body hx
      simp only [sizeV, List.length_cons, List.length_append, List.length_cons, List.length_nil]
      omega
  | obj => intro out h; exact absurd h (by simp [pyDumps])

theorem dumps_size_l (xs : PyList) : ∀ out, pyDumpsItems xs = some out →
    sizeL xs ≤ out.length + 1 := by
  cases xs with
  | nil => intro out h; simp [sizeL]
  | cons v tl =>
    cases tl with
    | nil =>
      intro out h
      simp only [pyDumpsItems] at h
      have := dumps_size_v v out h
      simp only [sizeL]
      omega
    | cons w tl2 =>
      intro out h
      simp only [pyDumpsItems] at h
      cases ha : pyDumps v with
      | none => rw [ha] at h; exact absurd h (by simp)
      | some a =>
        cases hb : pyDumpsItems (.cons w tl2) with
        | none => rw [ha, hb] at h; exact absurd h (by simp)
        | some b =>
          rw [ha, hb] at h
          simp only [Option.some.injEq] at h
          subst h
          have h1 := dumps_size_v v a ha
          have h2 := dumps_size_l (.cons w tl2) b hb
          simp only [sizeL] at h2 ⊢
          simp only [List.length_append, List.length_cons]
          omega

theorem dumps_size_d (xs : PyDict) : ∀ out, pyDumpsMembers xs = some out →
    sizeD xs ≤ out.length + 1 := by
  cases xs with
  | nil => intro out h; simp [sizeD]
  | cons k v tl =>
    cases tl with
    | nil =>
      intro out h
      simp only [pyDumpsMembers] at h
      cases ha : pyDumps v with
      | none => rw [ha] at h; exact absurd h (by simp)
      | some a =>
        rw [ha] at h
        simp only [Option.some.injEq] at h
        subst h
        have h1 := dumps_size_v v a ha
        have h2 := flatMap_encChar_length k
        simp only [sizeD, encString, List.length_append, List.length_cons, List.length_nil]
        omega
    | cons k2 w tl2 =>
      intro out h
      simp only [pyDumpsMembers] at h
      cases ha : pyDumps v with
      | none => rw [ha] at h; exact absurd h (by simp)
      | some a =>
        cases hb : pyDumpsMembers (.cons k2 w tl2) with
        | none => rw [ha, hb] at h; exact absurd h (by simp)
        | some b =>
          rw [ha, hb] at h
          simp only [Option.some.injEq] at h
          subst h
          have h1 := dumps_size_v v a ha
          have h2 := dumps_size_d (.cons k2 w tl2) b hb
          have h3 := flatMap_encChar_length k
          simp only [sizeD] at h2 ⊢
          simp only [encString, List.length_append, List.length_cons, List.length_nil]
          omega

end

/-- Round-trip: decoding any `json.dumps` output recovers the value. -/
theorem jsonLoads_pyDumps (v : PyValue) (out : List Char) (h : pyDumps v = some out) :
    jsonLoads out = some v := by
  have hsize := dumps_size_v v out h
  have hparse := (parse_pyDumps (out.length + 1)).1 v out [] [] h (by omega) rfl rfl
  simp only [List.append_nil, List.nil_append] at hparse
  simp only [jsonLoads, hparse]
  rfl

mutual

/-- A value is encodable exactly when the encoder succeeds on it. -/
theorem pyEncodable_iff_dumps (v : PyValue) :
    pyEncodable v = true ↔ (pyDumps v).isSome = true := by
  cases v with
  | none => simp [pyEncodable, pyDumps]
  | bool b => cases b <;> simp [pyEncodable, pyDumps]
  | int n => simp [pyEncodable, pyDumps]
  | str s => simp [pyEncodable, pyDumps]
  | list xs =>
    have hiff := pyEncodableL_iff_dumps xs
    rw [show pyEncodable (.list xs) = pyEncodableL xs from rfl, hiff]
    cases hx : pyDumpsItems xs with
    | none => simp [pyDumps, hx]
    | some body => simp [pyDumps, hx]
  | dict xs =>
    have hiff := pyEncodableD_iff_dumps xs
    rw [show pyEncodable (.dict xs) = pyEncodableD xs from rfl, hiff]
    cases hx : pyDumpsMembers xs with
    | none => simp [pyDumps, hx]
    | some body => simp [pyDumps, hx]
  | obj => simp [pyEncodable, pyDumps]

theorem pyEncodableL_iff_dumps (xs : PyList) :
    pyEncodableL xs = true ↔ (pyDumpsItems xs).isSome = true := by
  cases xs with
  | nil => simp [pyEncodableL, pyDumpsItems]
  | cons v tl =>
    have hv := pyEncodable_iff_dumps v
    cases tl with
    | nil =>
      rw [show pyEncodableL (.cons v .nil) = (pyEncodable v && true) from rfl]
      simp only [Bool.and_true]
      rw [hv]
      rfl
    | cons w tl2 =>
      have htl := pyEncodableL_iff_dumps (.cons w tl2)
      rw [show pyEncodableL (.cons v (.cons w tl2))
        = (pyEncodable v && pyEncodableL (.cons w tl2)) from rfl]
      rw [Bool.and_eq_true, hv, htl]
      cases ha : pyDumps v with
      | none => simp [pyDumpsItems, ha]
      | some a =>
        cases hb : pyDumpsItems (.cons w tl2) with
        | none => simp [pyDumpsItems, ha, hb]
        | some b => simp [pyDumpsItems, ha, hb]

theorem pyEncodableD_iff_dumps (xs : PyDict) :
    pyEncodableD xs = true ↔ (pyDumpsMembers xs).isSome = true := by
  cases xs with
  | nil => simp [pyEncodableD, pyDumpsMembers]
  | cons k v tl =>
    have hv := pyEncodable_iff_dumps v
    cases tl with
    | nil =>
      rw [show pyEncodableD (.cons k v .nil) = (pyEncodable v && true) from rfl]
      simp only [Bool.and_true]
      rw [hv]
      cases ha : pyDumps v with
      | none => simp [pyDumpsMembers, ha]
      | some a => simp [pyDumpsMembers, ha]
    | cons k2 w tl2 =>
      have htl := pyEncodableD_iff_dumps (.cons k2 w tl2)
      rw [show pyEncodableD (.cons k v (.cons k2 w tl2))
        = (pyEncodable v && pyEncodableD (.cons k2 w tl2)) from rfl]
      rw [Bool.and_eq_true, hv, htl]
      cases ha : pyDumps v with
      | none => simp [pyDumpsMembers, ha]
      | some a =>
        cases hb : pyDumpsMembers (.cons k2 w tl2) with
        | none => simp [pyDumpsMembers, ha, hb]
        | some b => simp [pyDumpsMembers, ha, hb]

end

/-! ## Model of `src/hera/env.py`

The argo model classes (`EnvVar`, `EnvVarSource`, selectors) are plain
generated records; an attribute never passed to the constructor is
absent from the serialized object, modelled as an `Option` field left
`none`. -/

structure SecretKeySelector where
  name : String
  key : String
deriving DecidableEq

structure ConfigMapKeySelector where
  name : String
  key : String
deriving DecidableEq

structure ObjectFieldSelector where
  field_path : String
  api_version : Option String
deriving DecidableEq

structure EnvVarSource where
  secret_key_ref : Option SecretKeySelector := Option.none
  config_map_key_ref : Option ConfigMapKeySelector := Option.none
  field_ref : Option ObjectFieldSelector := Option.none
deriving DecidableEq

structure EnvVar where
  name : String
  value : Option String := Option.none
  value_from : Option EnvVarSource := Option.none
deriving DecidableEq

/-- The spec's error taxonomy (§7).  In the Python source these surface
as `ValueError` (illegal operation ordering, `InvalidStateError` in the
spec), `TypeError` raised by `json.dumps` (`SerializationError`), a
failed `assert`, and `KeyError`. -/
inductive HeraError : Type where
| invalidState : HeraError
| serialization : HeraError
| assertionFailed : HeraError
| keyError : HeraError
deriving DecidableEq

/-- `EnvSpec` of `env.py`: name, optional literal value, optional input
reference.  The unset Python `value=None` is `PyValue.none`, which is
itself JSON-encodable. -/
structure EnvSpec where
  name : String
  value : PyValue := PyValue.none
  value_from_input : Option String := Option.none

/-- `EnvSpec.build` (env.py lines 55-63): with an input reference the
value is the input-parameter interpolation for the variable's own name;
a string literal passes through; anything else goes through
`json.dumps`, whose `TypeError` on a non-encodable value is the
serialization error. -/
def EnvSpec.build (e : EnvSpec) : Except HeraError EnvVar :=
  match e.value_from_input with
  | some _ =>
    Except.ok { name := e.name,
                value := some ("\x7b\x7binputs.parameters." ++ e.name ++ "\x7d\x7d") }
  | Option.none =>
    match e.value with
    | PyValue.str s => Except.ok { name := e.name, value := some (String.mk s) }
    | v =>
      match pyDumps v with
      | some out => Except.ok { name := e.name, value := some (String.mk out) }
      | Option.none => Except.error HeraError.serialization

/-- `SecretEnvSpec` (dataclass over `SecretNamedKey` and `EnvSpec`):
all five fields are present on the object. -/
structure SecretEnvSpec where
  secret_name : String
  secret_key : String
  name : String
  value : PyValue := PyValue.none
  value_from_input : Option String := Option.none

/-- `SecretEnvSpec.build` (env.py lines 78-83): only the name and the
secret key reference are put on the `EnvVar`. -/
def SecretEnvSpec.build (e : SecretEnvSpec) : EnvVar :=
  { name := e.name,
    value_from := some { secret_key_ref := some ⟨e.secret_name, e.secret_key⟩ } }

/-- `ConfigMapEnvSpec` (dataclass over `ConfigMapNamedKey` and `EnvSpec`). -/
structure ConfigMapEnvSpec where
  config_map_name : String
  config_map_key : String
  name : String
  value : PyValue := PyValue.none
  value_from_input : Option String := Option.none

/-- `ConfigMapEnvSpec.build` (env.py lines 98-105). -/
def ConfigMapEnvSpec.build (e : ConfigMapEnvSpec) : EnvVar :=
  { name := e.name,
    value_from := some { config_map_key_ref := some ⟨e.config_map_name, e.config_map_key⟩ } }

/-- `FieldEnvSpec` (dataclass over `FieldPath` and `EnvSpec`), with
`api_version` defaulted to `'v1'`. -/
structure FieldEnvSpec where
  field_path : String
  name : String
  value : PyValue := PyValue.none
  value_from_input : Option String := Option.none
  api_version : Option String := some ("v1")

/-- `FieldEnvSpec.build` (env.py lines 145-152). -/
def FieldEnvSpec.build (e : FieldEnvSpec) : EnvVar :=
  { name := e.name,
    value_from := some { field_ref := some ⟨e.field_path, e.api_version⟩ } }

/-- The same `EnvSpec` dataclass with its `value: Optional[Any]` taken
over the unrestricted Python domain `PyObj` (the dataclass places no
constraint on the value's type).  `EnvSpec` above is its restriction to
the JSON-native fragment, over which the round-trip claims are settled;
this variant exhibits the inputs outside that fragment. -/
structure EnvSpecAny where
  name : String
  value : PyObj := PyObj.none
  value_from_input : Option String := Option.none

/-- `EnvSpec.build` (env.py lines 55-63) over the unrestricted value
domain: identical translation, with `json.dumps` modelled by
`pyObjDumps`. -/
def EnvSpecAny.build (e : EnvSpecAny) : Except HeraError EnvVar :=
  match e.value_from_input with
  | some _ =>
    Except.ok { name := e.name,
                value := some ("\x7b\x7binputs.parameters." ++ e.name ++ "\x7d\x7d") }
  | Option.none =>
    match e.value with
    | PyObj.str s => Except.ok { name := e.name, value := some (String.mk s) }
    | v =>
      match pyObjDumps v with
      | some out => Except.ok { name := e.name, value := some (String.mk out) }
      | Option.none => Except.error HeraError.serialization

/-! ## Model of `src/hera/workflow.py`

Collaborator classes live in repository files that are not under
`src/`; each is modelled from the specification document (spec §2:
"each wraps a narrow piece of the target manifest schema and exposes a
pure compile-to-manifest-fragment operation with no state beyond its own
fields").  Only the shape `workflow.py` relies on is modelled: a record
of the fields plus the pure build method it calls. -/

/-- Modelled from the spec: `hera/task.py` is not under `src/`.  Only
the two attributes `workflow.py` touches are modelled: the task name and
the exit-task mark (`is_exit_task`).  Named `HeraTask` because `Task` is
taken by the Lean prelude. -/
structure HeraTask where
  name : String
  is_exit_task : Bool := false
deriving DecidableEq

/-- A compiled template fragment of the manifest (spec §2). -/
structure Template where
  name : String
deriving DecidableEq

/-- A compiled volume claim template fragment. -/
structure VolumeClaimTemplate where
  name : String
deriving DecidableEq

/-- A compiled volume fragment. -/
structure VolumeFragment where
  name : String
deriving DecidableEq

/-- Modelled from the spec: `hera/dag.py` is not under `src/`.  Spec §2
and §4.3 describe the DAG as a named ordered task collection whose
compile step yields the manifest's template fragments; `workflow.py`
consumes only the outputs of its four build methods, so the DAG record
carries them. -/
structure DAG where
  name : String
  taskTemplates : List Template := []
  dagTemplates : List Template := []
  volumeClaimTemplates : List VolumeClaimTemplate := []
  persistentVolumeClaims : List VolumeFragment := []
deriving DecidableEq

/-- `dag._build_templates()`: the templates of the DAG's tasks. -/
def DAG.buildTemplates (d : DAG) : List Template := d.taskTemplates

/-- `dag.build()`: the DAG's own template list. -/
def DAG.build (d : DAG) : List Template := d.dagTemplates

/-- `dag._build_volume_claim_templates()`. -/
def DAG.buildVolumeClaimTemplates (d : DAG) : List VolumeClaimTemplate :=
  d.volumeClaimTemplates

/-- `dag._build_persistent_volume_claims()`. -/
def DAG.buildPersistentVolumeClaims (d : DAG) : List VolumeFragment :=
  d.persistentVolumeClaims

/-- `DAG(name=...)`: the fresh empty DAG `Workflow.__enter__` creates. -/
def DAG.new (name : String) : DAG := { name := name }

/-- Modelled from the spec: `hera/parameter.py` is not under `src/`.  A
global parameter is a named value; `as_argument` compiles it into the
manifest's argument fragment (identity on the modelled record). -/
structure Parameter where
  name : String
  value : Option String := Option.none
deriving DecidableEq

def Parameter.as_argument (p : Parameter) : Parameter := p

/-- Modelled from the spec: `hera/ttl_strategy.py` is not under `src/`;
a pure record with a compile method (spec §2). -/
structure TTLStrategy where
  seconds_after_completion : Option Int := Option.none
  seconds_after_success : Option Int := Option.none
  seconds_after_failure : Option Int := Option.none

def TTLStrategy.build (t : TTLStrategy) : TTLStrategy := t

/-- Modelled from the spec: `hera/volume_claim_gc.py` is not under
`src/`; an enumeration of volume GC strategies whose `.value` is the
manifest string. -/
inductive VolumeClaimGCStrategy : Type where
| onWorkflowCompletion : VolumeClaimGCStrategy
| onWorkflowSuccess : VolumeClaimGCStrategy

def VolumeClaimGCStrategy.value : VolumeClaimGCStrategy → String
| .onWorkflowCompletion => "OnWorkflowCompletion"
| .onWorkflowSuccess => "OnWorkflowSuccess"

/-- The `IoArgoprojWorkflowV1alpha1VolumeClaimGC` fragment. -/
structure VolumeClaimGC where
  strategy : String

/-- Modelled from the spec: `hera/host_alias.py` is not under `src/`;
mapping between an IP and hostnames, with its manifest fragment. -/
structure HostAlias where
  ip : String
  hostnames : List String

def HostAlias.argo_host_alias (h : HostAlias) : HostAlias := h

/-- Modelled from the spec: `hera/security_context.py` is not under
`src/`; workflow-level security settings with a pure compile method. -/
structure WorkflowSecurityContext where
  run_as_user : Option Int := Option.none
  run_as_group : Option Int := Option.none

def WorkflowSecurityContext.get_security_context (s : WorkflowSecurityContext) :
    WorkflowSecurityContext := s

/-- Modelled from the spec: `hera/affinity.py` is not under `src/`; the
scheduling affinity record with its compile method. -/
structure Affinity where
  tag : String

def Affinity.build (a : Affinity) : Affinity := a

/-- Modelled from the spec: `hera/toleration.py` is not under `src/`. -/
structure Toleration where
  key : String
  effect : String
  operator : String
  value : String := ""

def Toleration.build (t : Toleration) : Toleration := t

/-- The `LocalObjectReference` argo model record. -/
structure LocalObjectReference where
  name : String
deriving DecidableEq

/-- The `IoArgoprojWorkflowV1alpha1Arguments` fragment. -/
structure Arguments where
  parameters : List Parameter
deriving DecidableEq

/-- The `ObjectMeta` record built by `Workflow._build_metadata`; an
attribute never set is absent (`none`). -/
structure ObjectMeta where
  name : Option String := Option.none
  labels : Option (List (String × String)) := Option.none
  annotations : Option (List (String × String)) := Option.none

/-- The `IoArgoprojWorkflowV1alpha1WorkflowSpec` record as assembled by
`Workflow._build_spec`: every field that the source sets with `setattr`
only under a condition is an `Option` that stays `none` when the
condition does not hold, which models the attribute being entirely
absent from the serialized manifest. -/
structure WorkflowSpec where
  entrypoint : Option String := Option.none
  templates : Option (List Template) := Option.none
  parallelism : Option Int := Option.none
  ttl_strategy : Option TTLStrategy := Option.none
  volume_claim_gc : Option VolumeClaimGC := Option.none
  host_aliases : Option (List HostAlias) := Option.none
  security_context : Option WorkflowSecurityContext := Option.none
  service_account_name : Option String := Option.none
  image_pull_secrets : Option (List LocalObjectReference) := Option.none
  arguments : Option Arguments := Option.none
  affinity : Option Affinity := Option.none
  node_selector : Option (List (String × String)) := Option.none
  tolerations : Option (List Toleration) := Option.none
  volume_claim_templates : Option (List VolumeClaimTemplate) := Option.none
  volumes : Option (List VolumeFragment) := Option.none
  on_exit : Option String := Option.none

/-- The state of a `Workflow` object (`__init__`, workflow.py lines
81-120).  The submission service is outside the model: `create` returns
the manifest it hands to `service.create_workflow`. -/
structure Workflow where
  name : String
  parallelism : Option Int := Option.none
  security_context : Option WorkflowSecurityContext := Option.none
  service_account_name : Option String := Option.none
  labels : Option (List (String × String)) := Option.none
  annotations : Option (List (String × String)) := Option.none
  image_pull_secrets : Option (List String) := Option.none
  workflow_template_ref : Option String := Option.none
  node_selector : Option (List (String × String)) := Option.none
  ttl_strategy : Option TTLStrategy := Option.none
  affinity : Option Affinity := Option.none
  parameters : Option (List Parameter) := Option.none
  tolerations : Option (List Toleration) := Option.none
  in_context : Bool := false
  volume_claim_gc_strategy : Option VolumeClaimGCStrategy := Option.none
  host_aliases : Option (List HostAlias) := Option.none
  dag : Option DAG := Option.none
  exit_task : Option String := Option.none
  tasks : List HeraTask := []

/-- `Workflow._build_metadata` (workflow.py lines 122-131): the name is
set when `use_name`; labels and annotations are set only when Python
truthy, so both `None` and an empty dict are omitted. -/
def Workflow.buildMetadata (w : Workflow) (use_name : Bool) : ObjectMeta :=
  let m1 : ObjectMeta := {}
  let m2 := if use_name then { m1 with name := some w.name } else m1
  let m3 := match w.labels with
    | some l => if l ≠ [] then { m2 with labels := some l } else m2
    | Option.none => m2
  match w.annotations with
  | some l => if l ≠ [] then { m3 with annotations := some l } else m3
  | Option.none => m3

/-- The `if x is not None: setattr(spec, field, build(x))` idiom of
`_build_spec`: apply the update when the optional is present, leave the
record unchanged otherwise. -/
def setIf {α : Type} (o : Option α) (upd : α → WorkflowSpec → WorkflowSpec)
    (s : WorkflowSpec) : WorkflowSpec :=
  match o with
  | some x => upd x s
  | Option.none => s

/-- `Workflow._build_spec` (workflow.py lines 133-203): asserts a DAG is
present, always sets `templates` (with the DAG template and the
entrypoint added unless building a workflow template), and sets every
other field only when the corresponding optional is present (for the two
volume lists, only when non-empty, Python truthiness). -/
def Workflow.buildSpec (w : Workflow) (workflow_template : Bool) :
    Except HeraError WorkflowSpec :=
  match w.dag with
  | Option.none => Except.error HeraError.assertionFailed
  | some dag =>
    let templates0 := dag.buildTemplates
    let spec0 : WorkflowSpec := {}
    let st1 :=
      if !workflow_template then
        (templates0 ++ dag.build, { spec0 with entrypoint := some w.name })
      else (templates0, spec0)
    let spec2 := { st1.2 with templates := some st1.1 }
    let spec3 := setIf w.parallelism (fun p s => { s with parallelism := some p }) spec2
    let spec4 := setIf w.ttl_strategy (fun t s => { s with ttl_strategy := some t.build }) spec3
    let spec5 := setIf w.volume_claim_gc_strategy
      (fun x s => { s with volume_claim_gc := some ⟨x.value⟩ }) spec4
    let spec6 := setIf w.host_aliases
      (fun hs s => { s with host_aliases := some (hs.map HostAlias.argo_host_alias) }) spec5
    let spec7 := setIf w.security_context
      (fun sc s => { s with security_context := some sc.get_security_context }) spec6
    let spec8 := setIf w.service_account_name
      (fun x s => { s with service_account_name := some x }) spec7
    let spec9 := setIf w.image_pull_secrets
      (fun ns s => { s with image_pull_secrets := some (ns.map LocalObjectReference.mk) }) spec8
    let spec10 := setIf w.parameters
      (fun ps s => { s with arguments := some ⟨ps.map Parameter.as_argument⟩ }) spec9
    let spec11 := setIf w.affinity (fun a s => { s with affinity := some a.build }) spec10
    let spec12 := setIf w.node_selector (fun ns s => { s with node_selector := some ns }) spec11
    let spec13 := setIf w.tolerations
      (fun ts s => { s with tolerations := some (ts.map Toleration.build) }) spec12
    let vct := dag.buildVolumeClaimTemplates
    let spec14 := if vct ≠ [] then { spec13 with volume_claim_templates := some vct } else spec13
    let pvcs := dag.buildPersistentVolumeClaims
    let spec15 := if pvcs ≠ [] then { spec14 with volumes := some pvcs } else spec14
    let spec16 := setIf w.exit_task (fun t s => { s with on_exit := some t }) spec15
    Except.ok spec16

/-- `Workflow.build` (workflow.py lines 205-207): metadata plus spec. -/
def Workflow.build (w : Workflow) : Except HeraError (ObjectMeta × WorkflowSpec) :=
  match w.buildSpec false with
  | Except.ok spec => Except.ok (w.buildMetadata true, spec)
  | Except.error e => Except.error e

/-- `Workflow.__enter__` (workflow.py lines 209-219): sets `in_context`
first, then raises `ValueError` when a DAG is already assigned,
otherwise creates a DAG named after the workflow.  The returned pair is
the object state after the call together with the raised error, if any;
the process-wide `hera.dag_context` registration is outside the model. -/
def Workflow.enter (w : Workflow) : Workflow × Option HeraError :=
  let w1 := { w with in_context := true }
  match w1.dag with
  | some _ => (w1, some HeraError.invalidState)
  | Option.none => ({ w1 with dag := some (DAG.new w1.name) }, Option.none)

/-- `Workflow.__exit__` (workflow.py lines 221-227). -/
def Workflow.exitScope (w : Workflow) : Workflow := { w with in_context := false }

/-- `Workflow.create` (workflow.py lines 239-246): asserts a DAG is
present, raises `ValueError` inside a scope, and otherwise submits the
built manifest via `service.create_workflow` and returns the workflow.
The submission is modelled by returning the manifest alongside the
workflow; an error result submits nothing. -/
def Workflow.create (w : Workflow) :
    Except HeraError (Workflow × (ObjectMeta × WorkflowSpec)) :=
  match w.dag with
  | Option.none => Except.error HeraError.assertionFailed
  | some _ =>
    if w.in_context then Except.error HeraError.invalidState
    else
      match w.build with
      | Except.ok m => Except.ok (w, m)
      | Except.error e => Except.error e

/-- `Workflow.on_exit` (workflow.py lines 248-261): a Task becomes the
exit task by name and is marked `is_exit_task`; a DAG is wrapped in a
fresh marked task with a throwaway name (its registration into the
ambient context happens in `Task.__init__`, outside the model).  The
result is the updated workflow together with the marked task. -/
def Workflow.on_exit (w : Workflow) : HeraTask ⊕ DAG → Workflow × HeraTask
| Sum.inl t => ({ w with exit_task := some t.name }, { t with is_exit_task := true })
| Sum.inr d => ({ w with exit_task := some d.name },
    { name := "temp-name-for-hera-exit-dag", is_exit_task := true })

/-- `Workflow.get_parameter` (workflow.py lines 266-270): `KeyError`
when the parameter list is absent or has no parameter of that name,
otherwise a parameter whose value is the workflow-parameter
interpolation for the name. -/
def Workflow.get_parameter (w : Workflow) (name : String) : Except HeraError Parameter :=
  match w.parameters with
  | Option.none => Except.error HeraError.keyError
  | some ps =>
    match ps.find? (fun p => p.name == name) with
    | Option.none => Except.error HeraError.keyError
    | some _ =>
      Except.ok { name := name,
                  value := some ("\x7b\x7bworkflow.parameters." ++ name ++ "\x7d\x7d") }

/-! ## Claim theorems -/

/-- C1, amended: for every `EnvSpec` with `value_from_input` unset, a
string value passes through `build` verbatim as the `EnvVar` value, and
any other JSON-native value — built from `None`, booleans, ints,
strings, lists and string-keyed dicts, the values `json.loads` can
produce — is emitted as its `json.dumps` encoding, which JSON-decodes
back to the original value.  The claim as originally stated, over every
JSON-encodable value, is false of the program: `json.dumps` also
accepts tuples and dicts with non-string keys, which decode to lists
and to string-keyed dicts respectively (see the counterexample below). -/
theorem claim1_env_literal_roundtrip (e : EnvSpec) (h : e.value_from_input = Option.none) :
    (∀ s, e.value = PyValue.str s →
      e.build = Except.ok { name := e.name, value := some (String.mk s) }) ∧
    ((∀ s, e.value ≠ PyValue.str s) → pyEncodable e.value = true →
      ∃ out, pyDumps e.value = some out ∧
        e.build = Except.ok { name := e.name, value := some (String.mk out) } ∧
        jsonLoads out = some e.value) := by
  constructor
  · intro s hs
    simp [EnvSpec.build, h, hs]
  · intro hns henc
    obtain ⟨out, hout⟩ :=
      Option.isSome_iff_exists.mp ((pyEncodable_iff_dumps e.value).mp henc)
    refine ⟨out, hout, ?_, jsonLoads_pyDumps _ _ hout⟩
    cases hv : e.value with
    | str s => exact absurd hv (hns s)
    | none =>
      rw [hv] at hout
      simp [EnvSpec.build, h, hv, hout]
    | bool b =>
      rw [hv] at hout
      simp [EnvSpec.build, h, hv, hout]
    | int n =>
      rw [hv] at hout
      simp [EnvSpec.build, h, hv, hout]
    | list xs =>
      rw [hv] at hout
      simp [EnvSpec.build, h, hv, hout]
    | dict xs =>
      rw [hv] at hout
      simp [EnvSpec.build, h, hv, hout]
    | obj =>
      rw [hv] at hout
      simp [pyDumps] at hout

/-- Witness for C1 at a concrete non-string encodable value. -/
theorem claim1_env_literal_roundtrip_witness :
    EnvSpec.build { name := "x", value := PyValue.bool true }
      = Except.ok { name := "x", value := some ("true") } ∧
    jsonLoads ("true".data) = some (PyValue.bool true) := by
  obtain ⟨out, hdump, hbuild, hload⟩ :=
    (claim1_env_literal_roundtrip { name := "x", value := PyValue.bool true } rfl).2
      (by intro s hs; simp at hs) rfl
  have hout : out = 't' :: 'r' :: 'u' :: 'e' :: [] := by
    have : pyDumps (PyValue.bool true) = some ('t' :: 'r' :: 'u' :: 'e' :: []) := rfl
    rw [this] at hdump
    exact ((Option.some.injEq _ _).mp hdump).symm
  subst hout
  exact ⟨hbuild, hload⟩

/-- C1, counterexample to the claim as stated: the tuple `(True, None)`
is JSON-encodable — `json.dumps` emits `[true, null]`, so `build`
succeeds — yet JSON-decoding that output yields the list `[True, None]`
as a Python value, not the original tuple.  Encode/decode is therefore
not the identity on every JSON-encodable non-string value (likewise
`{1: 2}` encodes to `{"1": 2}`, which decodes to a string-keyed dict). -/
theorem claim1_env_literal_roundtrip_counterexample :
    EnvSpecAny.build
      { name := "x",
        value := PyObj.tuple (PyObjList.cons (PyObj.bool true)
          (PyObjList.cons PyObj.none PyObjList.nil)) }
      = Except.ok { name := "x", value := some ("[true, null]") } ∧
    jsonLoads ("[true, null]".data)
      = some (PyValue.list (PyList.cons (PyValue.bool true)
          (PyList.cons PyValue.none PyList.nil))) ∧
    toPyObj (PyValue.list (PyList.cons (PyValue.bool true)
        (PyList.cons PyValue.none PyList.nil)))
      ≠ PyObj.tuple (PyObjList.cons (PyObj.bool true)
          (PyObjList.cons PyObj.none PyObjList.nil)) := by
  refine ⟨rfl, ?_, ?_⟩
  · exact jsonLoads_pyDumps
      (PyValue.list (PyList.cons (PyValue.bool true) (PyList.cons PyValue.none PyList.nil)))
      ("[true, null]".data) rfl
  · simp [toPyObj, toPyObjList]

/-- C5: with `value_from_input` unset, a non-string non-encodable value
makes `build` fail with the serialization error, and every encodable
value (strings included) builds successfully. -/
theorem claim5_env_serialization_error (e : EnvSpec) (h : e.value_from_input = Option.none) :
    ((∀ s, e.value ≠ PyValue.str s) → pyEncodable e.value = false →
      e.build = Except.error HeraError.serialization) ∧
    (pyEncodable e.value = true → ∃ ev, e.build = Except.ok ev) := by
  constructor
  · intro hns henc
    have hdump : pyDumps e.value = Option.none := by
      cases hd : pyDumps e.value with
      | none => rfl
      | some out =>
        have : pyEncodable e.value = true := by
          rw [pyEncodable_iff_dumps, hd]
          rfl
        rw [this] at henc
        exact absurd henc (by simp)
    cases hv : e.value with
    | str s => exact absurd hv (hns s)
    | none =>
      rw [hv] at hdump
      simp [pyDumps] at hdump
    | bool b =>
      rw [hv] at hdump
      cases b <;> simp [pyDumps] at hdump
    | int n =>
      rw [hv] at hdump
      simp [pyDumps] at hdump
    | list xs =>
      rw [hv] at hdump
      simp [EnvSpec.build, h, hv, hdump]
    | dict xs =>
      rw [hv] at hdump
      simp [EnvSpec.build, h, hv, hdump]
    | obj =>
      simp [EnvSpec.build, h, hv, pyDumps]
  · intro henc
    cases hv : e.value with
    | str s =>
      exact ⟨{ name := e.name, value := some (String.mk s) }, by simp [EnvSpec.build, h, hv]⟩
    | none =>
      exact ⟨{ name := e.name, value := some ("null") },
        by simp [EnvSpec.build, h, hv, pyDumps]⟩
    | bool b =>
      cases b with
      | true =>
        exact ⟨{ name := e.name, value := some ("true") },
          by simp [EnvSpec.build, h, hv, pyDumps]⟩
      | false =>
        exact ⟨{ name := e.name, value := some ("false") },
          by simp [EnvSpec.build, h, hv, pyDumps]⟩
    | int n =>
      exact ⟨{ name := e.name, value := some (String.mk (intRepr n)) },
        by simp [EnvSpec.build, h, hv, pyDumps]⟩
    | list xs =>
      rw [hv] at henc
      obtain ⟨out, hout⟩ :=
        Option.isSome_iff_exists.mp ((pyEncodable_iff_dumps (PyValue.list xs)).mp henc)
      exact ⟨{ name := e.name, value := some (String.mk out) },
        by simp [EnvSpec.build, h, hv, hout]⟩
    | dict xs =>
      rw [hv] at henc
      obtain ⟨out, hout⟩ :=
        Option.isSome_iff_exists.mp ((pyEncodable_iff_dumps (PyValue.dict xs)).mp henc)
      exact ⟨{ name := e.name, value := some (String.mk out) },
        by simp [EnvSpec.build, h, hv, hout]⟩
    | obj =>
      rw [hv] at henc
      exact absurd henc (by simp [pyEncodable])

/-- Witness for C5 at a concrete non-encodable value (an arbitrary
non-JSON object) and a concrete encodable one. -/
theorem claim5_env_serialization_error_witness :
    EnvSpec.build { name := "x", value := PyValue.obj }
      = Except.error HeraError.serialization ∧
    ∃ ev, EnvSpec.build { name := "x", value := PyValue.int 0 } = Except.ok ev := by
  constructor
  · exact (claim5_env_serialization_error { name := "x", value := PyValue.obj } rfl).1
      (by intro s hs; simp at hs) rfl
  · exact (claim5_env_serialization_error { name := "x", value := PyValue.int 0 } rfl).2 rfl

/-- C9: with both `value` and `value_from_input` unset, `build` emits
the four-character string `"null"` (the JSON encoding of Python `None`)
as the variable's value, rather than omitting it or failing. -/
theorem claim9_env_none_value (e : EnvSpec) (h1 : e.value = PyValue.none)
    (h2 : e.value_from_input = Option.none) :
    e.build = Except.ok { name := e.name, value := some ("null") } ∧
    ("null" : String).length = 4 := by
  constructor
  · have hdump : pyDumps PyValue.none = some ('n' :: 'u' :: 'l' :: 'l' :: []) := rfl
    simp [EnvSpec.build, h1, h2, hdump]
  · rfl

/-- Witness for C9. -/
theorem claim9_env_none_value_witness :
    EnvSpec.build { name := "v" } = Except.ok { name := "v", value := some ("null") } ∧
    ("null" : String).length = 4 :=
  ⟨(claim9_env_none_value { name := "v" } rfl rfl).1,
   (claim9_env_none_value { name := "v" } rfl rfl).2⟩

/-- C7: parameter references use the engine's templating syntax
exactly: `get_parameter` yields `{{workflow.parameters.<name>}}` when
the name exists in the workflow's parameter list and `KeyError`
otherwise; `EnvSpec.build` with `value_from_input` set yields
`{{inputs.parameters.<name>}}` for the variable's own name. -/
theorem claim7_templating_exact :
    (∀ (w : Workflow) (ps : List Parameter) (pname : String),
      w.parameters = some ps → (∃ p ∈ ps, p.name = pname) →
      w.get_parameter pname = Except.ok
        { name := pname,
          value := some ("\x7b\x7bworkflow.parameters." ++ pname ++ "\x7d\x7d") }) ∧
    (∀ (w : Workflow) (pname : String),
      w.parameters = Option.none → w.get_parameter pname = Except.error HeraError.keyError) ∧
    (∀ (w : Workflow) (ps : List Parameter) (pname : String),
      w.parameters = some ps → (∀ p ∈ ps, p.name ≠ pname) →
      w.get_parameter pname = Except.error HeraError.keyError) ∧
    (∀ (e : EnvSpec) (s : String), e.value_from_input = some s →
      e.build = Except.ok
        { name := e.name,
          value := some ("\x7b\x7binputs.parameters." ++ e.name ++ "\x7d\x7d") }) := by
  refine ⟨?_, ?_, ?_, ?_⟩
  · intro w ps pname hps hex
    have hfind : (ps.find? (fun p => p.name == pname)).isSome = true := by
      rw [List.find?_isSome]
      obtain ⟨p, hp, hname⟩ := hex
      exact ⟨p, hp, by simp [hname]⟩
    obtain ⟨p, hp⟩ := Option.isSome_iff_exists.mp hfind
    simp [Workflow.get_parameter, hps, hp]
  · intro w pname hps
    simp [Workflow.get_parameter, hps]
  · intro w ps pname hps hall
    have hfind : ps.find? (fun p => p.name == pname) = Option.none := by
      rw [List.find?_eq_none]
      intro p hp
      simp [hall p hp]
    simp [Workflow.get_parameter, hps, hfind]
  · intro e s h
    simp [EnvSpec.build, h]

/-- Witness for C7 at a one-parameter workflow and a concrete env spec. -/
theorem claim7_templating_exact_witness :
    Workflow.get_parameter { name := "w", parameters := some [{ name := "p" }] } "p"
      = Except.ok { name := "p", value := some ("\x7b\x7bworkflow.parameters.p\x7d\x7d") } ∧
    Workflow.get_parameter { name := "w", parameters := some [{ name := "p" }] } "q"
      = Except.error HeraError.keyError ∧
    EnvSpec.build { name := "e", value_from_input := some ("x") }
      = Except.ok { name := "e", value := some ("\x7b\x7binputs.parameters.e\x7d\x7d") } := by
  refine ⟨?_, ?_, ?_⟩
  · exact claim7_templating_exact.1 { name := "w", parameters := some [{ name := "p" }] }
      [{ name := "p" }] "p" rfl ⟨{ name := "p" }, by simp, rfl⟩
  · exact claim7_templating_exact.2.2.1
      { name := "w", parameters := some [{ name := "p" }] } [{ name := "p" }] "q" rfl
      (by intro p hp; simp at hp; simp [hp])
  · exact claim7_templating_exact.2.2.2 { name := "e", value_from_input := some ("x") }
      "x" rfl

/-- C10: the secret, config-map and field variants of `EnvSpec` build
an `EnvVar` carrying only the variable name and the corresponding
`value_from` source reference; the literal `value` and
`value_from_input` fields inherited from `EnvSpec` never influence the
result. -/
theorem claim10_source_variants_ignore_literal :
    (∀ e : SecretEnvSpec, e.build =
      { name := e.name, value := Option.none,
        value_from := some { secret_key_ref := some ⟨e.secret_name, e.secret_key⟩,
                             config_map_key_ref := Option.none,
                             field_ref := Option.none } }) ∧
    (∀ e : ConfigMapEnvSpec, e.build =
      { name := e.name, value := Option.none,
        value_from := some { secret_key_ref := Option.none,
                             config_map_key_ref := some ⟨e.config_map_name, e.config_map_key⟩,
                             field_ref := Option.none } }) ∧
    (∀ e : FieldEnvSpec, e.build =
      { name := e.name, value := Option.none,
        value_from := some { secret_key_ref := Option.none,
                             config_map_key_ref := Option.none,
                             field_ref := some ⟨e.field_path, e.api_version⟩ } }) ∧
    (∀ (e : SecretEnvSpec) (v : PyValue) (vfi : Option String),
      SecretEnvSpec.build { e with value := v, value_from_input := vfi } = e.build) ∧
    (∀ (e : ConfigMapEnvSpec) (v : PyValue) (vfi : Option String),
      ConfigMapEnvSpec.build { e with value := v, value_from_input := vfi } = e.build) ∧
    (∀ (e : FieldEnvSpec) (v : PyValue) (vfi : Option String),
      FieldEnvSpec.build { e with value := v, value_from_input := vfi } = e.build) := by
  refine ⟨?_, ?_, ?_, ?_, ?_, ?_⟩
  · intro e; rfl
  · intro e; rfl
  · intro e; rfl
  · intro e v vfi; rfl
  · intro e v vfi; rfl
  · intro e v vfi; rfl

/-- C2: a `Workflow` with a DAG but none of the optional fields set
builds a manifest in which every corresponding optional key is entirely
absent (`none`), while the metadata name, the entrypoint and the
template list are set. -/
theorem claim2_build_omits_unset_optionals (w : Workflow) (d : DAG)
    (hdag : w.dag = some d)
    (h1 : w.parallelism = Option.none) (h2 : w.ttl_strategy = Option.none)
    (h3 : w.volume_claim_gc_strategy = Option.none) (h4 : w.host_aliases = Option.none)
    (h5 : w.security_context = Option.none) (h6 : w.service_account_name = Option.none)
    (h7 : w.image_pull_secrets = Option.none) (h8 : w.parameters = Option.none)
    (h9 : w.affinity = Option.none) (h10 : w.node_selector = Option.none)
    (h11 : w.tolerations = Option.none) (h12 : w.labels = Option.none)
    (h13 : w.annotations = Option.none) (h14 : w.exit_task = Option.none) :
    ∃ meta spec, w.build = Except.ok (meta, spec) ∧
      meta.name = some w.name ∧ meta.labels = Option.none ∧ meta.annotations = Option.none ∧
      spec.entrypoint = some w.name ∧
      spec.templates = some (d.buildTemplates ++ d.build) ∧
      spec.parallelism = Option.none ∧ spec.ttl_strategy = Option.none ∧
      spec.volume_claim_gc = Option.none ∧ spec.host_aliases = Option.none ∧
      spec.security_context = Option.none ∧ spec.service_account_name = Option.none ∧
      spec.image_pull_secrets = Option.none ∧ spec.arguments = Option.none ∧
      spec.affinity = Option.none ∧ spec.node_selector = Option.none ∧
      spec.tolerations = Option.none ∧ spec.on_exit = Option.none := by
  have hspec : w.buildSpec false = Except.ok
      { entrypoint := some w.name, templates := some (d.buildTemplates ++ d.build),
        volume_claim_templates :=
          if d.buildVolumeClaimTemplates ≠ [] then some d.buildVolumeClaimTemplates
          else Option.none,
        volumes :=
          if d.buildPersistentVolumeClaims ≠ [] then some d.buildPersistentVolumeClaims
          else Option.none } := by
    simp only [Workflow.buildSpec, setIf, hdag, h1, h2, h3, h4, h5, h6, h7, h8, h9, h10, h11,
      h14, Bool.not_false, if_true, ite_true]
    by_cases hv1 : d.buildVolumeClaimTemplates = [] <;>
      by_cases hv2 : d.buildPersistentVolumeClaims = [] <;> simp [hv1, hv2]
  have hmeta : w.buildMetadata true = { name := some w.name } := by
    simp [Workflow.buildMetadata, h12, h13]
  refine ⟨w.buildMetadata true,
    { entrypoint := some w.name, templates := some (d.buildTemplates ++ d.build),
      volume_claim_templates :=
        if d.buildVolumeClaimTemplates ≠ [] then some d.buildVolumeClaimTemplates
        else Option.none,
      volumes :=
        if d.buildPersistentVolumeClaims ≠ [] then some d.buildPersistentVolumeClaims
        else Option.none },
    ?_, ?_, ?_, ?_, rfl, rfl, rfl, rfl, rfl, rfl, rfl, rfl, rfl, rfl, rfl, rfl, rfl, rfl⟩
  · simp [Workflow.build, hspec]
  · simp [hmeta]
  · simp [hmeta]
  · simp [hmeta]

/-- Witness for C2 at a concrete bare workflow. -/
theorem claim2_build_omits_unset_optionals_witness :
    ∃ meta spec,
      Workflow.build { name := "wf", dag := some (DAG.new "wf") } = Except.ok (meta, spec) ∧
      meta.name = some ("wf") ∧ meta.labels = Option.none ∧ meta.annotations = Option.none ∧
      spec.entrypoint = some ("wf") ∧
      spec.templates = some ((DAG.new "wf").buildTemplates ++ (DAG.new "wf").build) ∧
      spec.parallelism = Option.none ∧ spec.ttl_strategy = Option.none ∧
      spec.volume_claim_gc = Option.none ∧ spec.host_aliases = Option.none ∧
      spec.security_context = Option.none ∧ spec.service_account_name = Option.none ∧
      spec.image_pull_secrets = Option.none ∧ spec.arguments = Option.none ∧
      spec.affinity = Option.none ∧ spec.node_selector = Option.none ∧
      spec.tolerations = Option.none ∧ spec.on_exit = Option.none :=
  claim2_build_omits_unset_optionals { name := "wf", dag := some (DAG.new "wf") }
    (DAG.new "wf") rfl rfl rfl rfl rfl rfl rfl rfl rfl rfl rfl rfl rfl rfl rfl

/-- C3: `create` inside a scoped context (`in_context` set, with the
scope's DAG assigned) fails with the invalid-state error and submits
nothing — the error result carries no manifest; after the scope has
closed, with a DAG present, `create` submits the built manifest and
returns the workflow. -/
theorem claim3_create_requires_closed_scope (w : Workflow) :
    (∀ d, w.dag = some d → w.in_context = true →
      w.create = Except.error HeraError.invalidState) ∧
    (∀ d, w.dag = some d → w.in_context = false →
      ∃ m, w.build = Except.ok m ∧ w.create = Except.ok (w, m)) := by
  constructor
  · intro d hdag hin
    simp [Workflow.create, hdag, hin]
  · intro d hdag hin
    have hbuild : ∃ m, w.build = Except.ok m := by
      simp only [Workflow.build, Workflow.buildSpec, hdag]
      exact ⟨_, rfl⟩
    obtain ⟨m, hm⟩ := hbuild
    exact ⟨m, hm, by simp [Workflow.create, hdag, hin, hm]⟩

/-- Witness for C3: a workflow stuck inside its scope, and one after
the scope closed. -/
theorem claim3_create_requires_closed_scope_witness :
    Workflow.create { name := "wf", dag := some (DAG.new "wf"), in_context := true }
      = Except.error HeraError.invalidState ∧
    ∃ m, Workflow.build { name := "wf", dag := some (DAG.new "wf") } = Except.ok m ∧
      Workflow.create { name := "wf", dag := some (DAG.new "wf") }
        = Except.ok ({ name := "wf", dag := some (DAG.new "wf") }, m) :=
  ⟨(claim3_create_requires_closed_scope
      { name := "wf", dag := some (DAG.new "wf"), in_context := true }).1
      (DAG.new "wf") rfl rfl,
   (claim3_create_requires_closed_scope { name := "wf", dag := some (DAG.new "wf") }).2
      (DAG.new "wf") rfl rfl⟩

/-- C4: entering the workflow scope with a DAG already assigned raises
the invalid-state error at entry; with no DAG, entry succeeds and
auto-creates a DAG named after the workflow. -/
theorem claim4_enter_rejects_existing_dag (w : Workflow) :
    (∀ d, w.dag = some d → (w.enter).2 = some HeraError.invalidState) ∧
    (w.dag = Option.none → (w.enter).2 = Option.none ∧
      (w.enter).1.dag = some (DAG.new w.name) ∧ (DAG.new w.name).name = w.name) := by
  constructor
  · intro d hdag
    simp [Workflow.enter, hdag]
  · intro hdag
    refine ⟨?_, ?_, rfl⟩ <;> simp [Workflow.enter, hdag]

/-- Witness for C4: entry with and without a pre-assigned DAG. -/
theorem claim4_enter_rejects_existing_dag_witness :
    ((Workflow.enter { name := "wf", dag := some (DAG.new "d") }).2
      = some HeraError.invalidState) ∧
    ((Workflow.enter { name := "wf" }).2 = Option.none ∧
      (Workflow.enter { name := "wf" }).1.dag = some (DAG.new "wf") ∧
      (DAG.new "wf").name = "wf") :=
  ⟨(claim4_enter_rejects_existing_dag { name := "wf", dag := some (DAG.new "d") }).1
      (DAG.new "d") rfl,
   (claim4_enter_rejects_existing_dag { name := "wf" }).2 rfl⟩

/-- C8: `__enter__` sets `in_context` before checking for an existing
DAG, so a failed entry leaves the workflow marked as in-context and a
subsequent `create` on the same object fails with the invalid-state
error even though no scope is active. -/
theorem claim8_failed_enter_leaves_state_dirty (w : Workflow) (d : DAG)
    (hdag : w.dag = some d) :
    (w.enter).2 = some HeraError.invalidState ∧
    (w.enter).1.in_context = true ∧
    (w.enter).1.create = Except.error HeraError.invalidState := by
  refine ⟨?_, ?_, ?_⟩ <;> simp [Workflow.enter, Workflow.create, hdag]

/-- Witness for C8. -/
theorem claim8_failed_enter_leaves_state_dirty_witness :
    ((Workflow.enter { name := "wf", dag := some (DAG.new "d") }).2
      = some HeraError.invalidState) ∧
    ((Workflow.enter { name := "wf", dag := some (DAG.new "d") }).1.in_context = true) ∧
    ((Workflow.enter { name := "wf", dag := some (DAG.new "d") }).1.create
      = Except.error HeraError.invalidState) :=
  claim8_failed_enter_leaves_state_dirty { name := "wf", dag := some (DAG.new "d") }
    (DAG.new "d") rfl


theorem setIf_none {α : Type} (upd : α → WorkflowSpec → WorkflowSpec) (s : WorkflowSpec) :
    setIf Option.none upd s = s := rfl

theorem setIf_some {α : Type} (x : α) (upd : α → WorkflowSpec → WorkflowSpec)
    (s : WorkflowSpec) : setIf (some x) upd s = upd x s := rfl

theorem onExit_setIf {α : Type} (o : Option α) (upd : α → WorkflowSpec → WorkflowSpec)
    (s : WorkflowSpec) (hp : ∀ x s', (upd x s').on_exit = s'.on_exit) :
    (setIf o upd s).on_exit = s.on_exit := by
  cases o with
  | none => rfl
  | some x => exact hp x s

/-- With a DAG present, `_build_spec` succeeds and the `on_exit` field
of the produced spec is exactly the workflow's recorded exit task. -/
theorem buildSpec_onExit (w : Workflow) (d : DAG) (hdag : w.dag = some d) :
    ∃ spec, w.buildSpec false = Except.ok spec ∧ spec.on_exit = w.exit_task := by
  simp only [Workflow.buildSpec, hdag]
  refine ⟨_, rfl, ?_⟩
  cases hx : w.exit_task with
  | some t =>
    simp only [hx, setIf_some]
  | none =>
    simp only [hx, setIf_none]
    simp only [apply_ite WorkflowSpec.on_exit, ite_self]
    iterate 11 rw [onExit_setIf]
    · rfl
    all_goals (intro x s'; rfl)

/-- C6: `on_exit` with a task records the task's name as the
workflow's exit-handler reference — visible in the built manifest as the
`on_exit` key — and marks the task as an exit task (the mark is what
later excludes it from the main execution template chain when the DAG
compiles its tasks). -/
theorem claim6_on_exit_task (w : Workflow) (t : HeraTask) (d : DAG) (hdag : w.dag = some d) :
    (w.on_exit (Sum.inl t)).1.exit_task = some t.name ∧
    (w.on_exit (Sum.inl t)).2 = { t with is_exit_task := true } ∧
    (w.on_exit (Sum.inl t)).2.is_exit_task = true ∧
    ∃ meta spec, (w.on_exit (Sum.inl t)).1.build = Except.ok (meta, spec) ∧
      spec.on_exit = some t.name := by
  refine ⟨rfl, rfl, rfl, ?_⟩
  have hdag2 : (w.on_exit (Sum.inl t)).1.dag = some d := hdag
  obtain ⟨spec, hspec, honexit⟩ := buildSpec_onExit (w.on_exit (Sum.inl t)).1 d hdag2
  refine ⟨(w.on_exit (Sum.inl t)).1.buildMetadata true, spec, ?_, ?_⟩
  · simp only [Workflow.build, hspec]
  · rw [honexit]
    rfl

/-- Witness for C6. -/
theorem claim6_on_exit_task_witness :
    (Workflow.on_exit { name := "wf", dag := some (DAG.new "wf") }
      (Sum.inl { name := "cleanup" })).1.exit_task = some ("cleanup") ∧
    (Workflow.on_exit { name := "wf", dag := some (DAG.new "wf") }
      (Sum.inl { name := "cleanup" })).2
      = { name := "cleanup", is_exit_task := true } ∧
    (Workflow.on_exit { name := "wf", dag := some (DAG.new "wf") }
      (Sum.inl { name := "cleanup" })).2.is_exit_task = true ∧
    ∃ meta spec,
      (Workflow.on_exit { name := "wf", dag := some (DAG.new "wf") }
        (Sum.inl { name := "cleanup" })).1.build = Except.ok (meta, spec) ∧
      spec.on_exit = some ("cleanup") :=
  claim6_on_exit_task { name := "wf", dag := some (DAG.new "wf") } { name := "cleanup" }
    (DAG.new "wf") rfl
